import Mathlib

set_option maxHeartbeats 1000000

/-!
Verification of the value-parsing engine of `afire` (file `afire/parser.py`)
against its natural-language specification.

The Python source is shallowly embedded:

* `PyVal` models the dynamic Python values the engine manipulates
  (ints, strings, booleans, `None`, bytes, lists, tuples, sets, dicts).
* `PyType` models the type annotations handed to the engine
  (`int`, `str`, `bool`, `bytes`, `NoneType`, `typing.Any`, a `TypeVar`
  instance, `Ellipsis` as it occurs in `Tuple[X, ...]`, classic
  `Union[...]` / operator unions `X | Y` (distinguished by a `sugar` flag),
  and the parameterized containers `List/Tuple/Set/Dict`).
  `datetime`/`date` annotations are not modelled: no claim touches them.
* `PErr` models the exception classes that drive control flow in the
  source: `ValueError` (the only class the converter catches, carrying a
  structured kind in place of the message string), `TypeError`,
  `AttributeError`, `OverflowError` and `SyntaxError`.
* The literal parser (`ast.parse` + `_LiteralEval` + `_Replacement` +
  `ast.literal_eval`) is modelled by structural functions (the tokenizer
  and grammar use an explicit fuel bound, always sufficient for the
  chosen budget) so that closed instances compute by `rfl`.
* The typed converter (`ParseComplexValue`, `_ParseConvert`,
  `SpecTypeParseValueGen`, `TypeToParser`) is modelled by well-founded
  mutual recursion on the structure of the type annotation.

Host-language (CPython) behaviour that the source relies on — `int(...)`,
`str(...)`, `==`, `len()`, iteration, hashability, and the restricted
expression grammar of `ast.parse` — is modelled on the fragment exercised
by the engine; modelling notes are attached to each definition.
-/

/-- Dynamic Python values flowing through the parsing engine.
Dict entries keep insertion order, as CPython dicts do; sets store their
canonical (deduplicated, insertion-ordered) element list. -/
inductive PyVal where
  | intV (n : Int)
  | strV (s : String)
  | boolV (b : Bool)
  | noneV
  | bytesV (bs : List Nat)
  | listV (xs : List PyVal)
  | tupleV (xs : List PyVal)
  | setV (xs : List PyVal)
  | dictV (ps : List (PyVal × PyVal))

/-- Structured stand-ins for the `ValueError` messages raised by the
source; the converter never inspects the message text, only the class, so
each raise site gets one kind. -/
inductive VKind where
  /-- `int("abc")` — invalid literal for int. -/
  | cannotParseInt (s : String)
  /-- `parser.py` line 124 / line 145: `cannot parse value ... to type ...`. -/
  | noVariantMatched
  /-- line 157: `number of args mismatch in type ... and value ...`. -/
  | arityMismatch
  /-- line 163: a `None` element annotation met a non-`None` value. -/
  | noneElemMismatch
  /-- lines 173/195: `the type hint is ..., but got type ...`. -/
  | hintMismatch
  /-- line 197: `not support type ... yet` (also models the unpacking
  failure of `key_t, value_t = args` on a malformed arg list). -/
  | notSupported
  /-- line 210: `_BytesParser` fell through every accepted source type. -/
  | bytesUnsupported
  /-- `ast.literal_eval` met a node that is not a literal (e.g. a nested
  binary operation or a unary minus on a non-number). -/
  | malformedNode
  /-- `ast.literal_eval` met a `Name` node — the name-resolution failure
  mode (`malformed node or string: <ast.Name ...>`). -/
  | malformedName
  /-- `_LiteralEval` lines 271-272: the root of the tree is a `BinOp`. -/
  | rootBinOp

/-- Python exception classes relevant to control flow.  `except ValueError`
clauses in the source catch exactly the `valueError` constructor. -/
inductive PErr where
  | valueError (k : VKind)
  | typeError
  | attributeError
  | overflowError
  | syntaxError

/-- Type annotations reaching the engine.  `union sugar args` covers both
`Union[...]`/`Optional[...]` (`sugar = false`; CPython normalizes a
subscripted `Optional[X]` to `Union[X, None]`, so `Optional` never appears
as a runtime origin) and the operator spelling `X | Y` (`sugar = true`,
a `types.UnionType` instance). -/
inductive PyType where
  | intT
  | strT
  | boolT
  | bytesT
  | noneT
  | anyT
  /-- a `TypeVar` *instance* (such as `T`); the class `TypeVar` itself does
  not occur as an annotation in the modelled fragment. -/
  | typeVarT
  /-- `Ellipsis`, as it appears in `__args__` of `Tuple[X, ...]`. -/
  | ellipsisT
  | union (sugar : Bool) (args : List PyType)
  | listT (args : List PyType)
  | tupleT (args : List PyType)
  | setT (args : List PyType)
  | dictT (key : PyType) (value : PyType)

/-- The `__origin__` of a generic alias (plus the `Union` special form).
`bytesO` mirrors the `issubclass(origin, bytes)` branch of `_ParseConvert`;
no annotation in the modelled fragment produces it. -/
inductive Origin where
  | unionO
  | listO
  | tupleO
  | setO
  | dictO
  | bytesO
deriving DecidableEq

/-- Restricted Python expression AST, covering the fragment of `ast`
nodes that `_LiteralEval` can meet: constants, `Name`, containers,
a binary operation (its operator is irrelevant to behaviour) and unary
minus. -/
inductive Ast where
  | constInt (n : Int)
  | constStr (s : String)
  | constBool (b : Bool)
  | constNone
  | constBytes (bs : List Nat)
  | name (id : String)
  | listL (es : List Ast)
  | tupleL (es : List Ast)
  | setL (es : List Ast)
  | dictL (ps : List (Ast × Ast))
  | binOp (l r : Ast)
  | unaryNeg (e : Ast)

/-- Does the list of the first argument lead the second?  Used to
model `str.startswith`. -/
def charsLead : List Char → List Char → Bool
  | [], _ => true
  | _ :: _, [] => false
  | c :: cs, d :: ds => c = d && charsLead cs ds

/-- Model of `platform.python_version().startswith("3.11.")`, the
runtime-version test guarding operator-union support in the source. -/
def isVer311 (ver : String) : Bool :=
  charsLead "3.11.".toList ver.toList

mutual
/-- Python equality (`==`) on the modelled values.  Numeric cross-type
equality makes `True == 1` and `False == 0` hold, as in CPython.  Set and
dict equality are modelled on the canonical element order; the engine only
ever compares scalars (`set`/`dict` values are unhashable and so never
become set elements or dict keys), so those cases are unreachable from the
claims. -/
def pyEq : PyVal → PyVal → Bool
  | .intV a, .intV b => a == b
  | .intV a, .boolV b => a == (if b then (1 : Int) else 0)
  | .boolV a, .intV b => (if a then (1 : Int) else 0) == b
  | .boolV a, .boolV b => a == b
  | .strV a, .strV b => a == b
  | .bytesV a, .bytesV b => a == b
  | .noneV, .noneV => true
  | .listV xs, .listV ys => pyEqL xs ys
  | .tupleV xs, .tupleV ys => pyEqL xs ys
  | .setV xs, .setV ys => pyEqL xs ys
  | .dictV ps, .dictV qs => pyEqP ps qs
  | _, _ => false

/-- Elementwise Python equality of two value lists. -/
def pyEqL : List PyVal → List PyVal → Bool
  | [], [] => true
  | x :: xs, y :: ys => pyEq x y && pyEqL xs ys
  | _, _ => false

/-- Pairwise Python equality of two key/value pair lists. -/
def pyEqP : List (PyVal × PyVal) → List (PyVal × PyVal) → Bool
  | [], [] => true
  | (k, v) :: ps, (k2, v2) :: qs => pyEq k k2 && pyEq v v2 && pyEqP ps qs
  | _, _ => false
end

mutual
/-- Python hashability: scalars and tuples of hashables hash; lists,
sets and dicts do not. -/
def pyHashable : PyVal → Bool
  | .listV _ => false
  | .setV _ => false
  | .dictV _ => false
  | .tupleV xs => pyHashableL xs
  | _ => true

/-- Hashability of every element of a list. -/
def pyHashableL : List PyVal → Bool
  | [] => true
  | x :: xs => pyHashable x && pyHashableL xs
end

/-- Membership under Python equality, as used by `set` insertion. -/
def pyMem (v : PyVal) : List PyVal → Bool
  | [] => false
  | x :: xs => pyEq v x || pyMem v xs

/-- Inserting into a set's canonical element list: an element equal to an
existing one is dropped, otherwise it is appended. -/
def setInsert (acc : List PyVal) (v : PyVal) : List PyVal :=
  if pyMem v acc then acc else acc ++ [v]

/-- `d[k] = v` on an insertion-ordered pair list: an equal existing key
keeps its position (and original key object), only the value changes. -/
def dictInsert : List (PyVal × PyVal) → PyVal → PyVal → List (PyVal × PyVal)
  | [], k, v => [(k, v)]
  | (k0, v0) :: rest, k, v =>
      if pyEq k0 k then (k0, v) :: rest else (k0, v0) :: dictInsert rest k v

/-- Left-to-right construction of a set from evaluated elements
(hashability of each element has already been checked). -/
def setBuild : List PyVal → List PyVal → List PyVal
  | acc, [] => acc
  | acc, v :: vs => setBuild (setInsert acc v) vs

/-- Left-to-right construction of a dict from evaluated pairs
(hashability of each key has already been checked). -/
def dictBuild : List (PyVal × PyVal) → List (PyVal × PyVal) → List (PyVal × PyVal)
  | acc, [] => acc
  | acc, (k, v) :: ps => dictBuild (dictInsert acc k v) ps

/-- Decimal digits to a natural number (callers ensure all characters are
digits). -/
def digitsToNat (ds : List Char) : Nat :=
  ds.foldl (fun acc c => acc * 10 + (c.toNat - 48)) 0

/-- Whitespace as accepted between tokens (the engine's inputs only ever
contain spaces). -/
def skipWs : List Char → List Char
  | ' ' :: cs => skipWs cs
  | cs => cs

/-- A character that may continue an identifier. -/
def identChar (c : Char) : Bool := c.isAlphanum || c = '_'

/-- A character that may start an identifier. -/
def identStart (c : Char) : Bool := c.isAlpha || c = '_'

/-- Split the longest identifier run off the front of the input. -/
def spanIdent : List Char → (List Char × List Char)
  | [] => ([], [])
  | c :: cs =>
      if identChar c then
        match spanIdent cs with
        | (a, r) => (c :: a, r)
      else ([], c :: cs)

/-- Split the longest digit run off the front of the input. -/
def spanDigits : List Char → (List Char × List Char)
  | [] => ([], [])
  | c :: cs =>
      if c.isDigit then
        match spanDigits cs with
        | (a, r) => (c :: a, r)
      else ([], c :: cs)

/-- The double-quote character. -/
def quoteD : Char := Char.ofNat 34

/-- The single-quote character. -/
def quoteS : Char := Char.ofNat 39

/-- The backslash character. -/
def backslashC : Char := Char.ofNat 92

/-- The opening-brace character. -/
def braceO : Char := Char.ofNat 123

/-- The closing-brace character. -/
def braceC : Char := Char.ofNat 125

/-- Take the body of a quoted literal up to the closing quote `q`.
Escape sequences are outside the modelled grammar fragment and are
rejected. -/
def takeStrLit (q : Char) : List Char → Option (List Char × List Char)
  | [] => Option.none
  | c :: cs =>
      if c = q then some ([], cs)
      else if c = backslashC then Option.none
      else
        match takeStrLit q cs with
        | some (a, r) => some (c :: a, r)
        | Option.none => Option.none

/-- An identifier token: the three keywords become the constants
`ast.parse` produces for them (CPython lexes `True`/`False`/`None` as
keywords, never as `Name` nodes), every other identifier becomes a
`Name` node. -/
def identAtom (cs : List Char) : Option (Ast × List Char) :=
  match spanIdent cs with
  | (ics, r) =>
    if ics.isEmpty then Option.none
    else
      let id := String.mk ics
      if id = "True" then some (.constBool true, r)
      else if id = "False" then some (.constBool false, r)
      else if id = "None" then some (.constNone, r)
      else some (.name id, r)

/-- Is the head of the input a quote character? -/
def headIsQuote : List Char → Bool
  | c :: _ => c = quoteS || c = quoteD
  | [] => false

/-- The body of a byte-string literal after the leading `b`: a quoted
run whose characters become byte values. -/
def parseBytesLit : List Char → Option (Ast × List Char)
  | q :: tl2 =>
    (match takeStrLit q tl2 with
     | some (content, r) => some (.constBytes (content.map Char.toNat), r)
     | Option.none => Option.none)
  | [] => Option.none

mutual
/-- Model of `ast.parse(value, mode="eval")` (expression layer) on the
grammar fragment the engine exercises: an atom, optionally followed by a
single binary arithmetic operator and a second atom (enough to represent
the `BinOp` nodes that `_LiteralEval` and `ast.literal_eval` reject).
The fuel argument strictly bounds recursion; `pyParse` passes a budget
that is always sufficient. -/
def parseExpr : Nat → List Char → Option (Ast × List Char)
  | 0, _ => Option.none
  | f + 1, cs =>
    match parseAtom f (skipWs cs) with
    | Option.none => Option.none
    | some (a, r) =>
      match skipWs r with
      | c :: tl =>
        if c = '+' || c = '-' || c = '*' || c = '/' then
          match parseAtom f (skipWs tl) with
          | some (b, r2) => some (.binOp a b, r2)
          | Option.none => Option.none
        else some (a, c :: tl)
      | [] => some (a, [])

/-- Model of the atom layer of `ast.parse`: integers, quoted strings,
byte strings, identifiers/keywords, unary minus, and the container
literals `[...]`, `(...)`, `{...}` (set or dict). -/
def parseAtom : Nat → List Char → Option (Ast × List Char)
  | 0, _ => Option.none
  | _ + 1, [] => Option.none
  | f + 1, c :: tl =>
    if c = '-' then
      match parseAtom f (skipWs tl) with
      | some (a, r) => some (.unaryNeg a, r)
      | Option.none => Option.none
    else if c.isDigit then
      match spanDigits (c :: tl) with
      | (ds, r) => some (.constInt (Int.ofNat (digitsToNat ds)), r)
    else if c = quoteS || c = quoteD then
      match takeStrLit c tl with
      | some (content, r) => some (.constStr (String.mk content), r)
      | Option.none => Option.none
    else if identStart c then
      if c = 'b' && headIsQuote tl then parseBytesLit tl
      else identAtom (c :: tl)
    else if c = '[' then
      match parseElems f ']' tl with
      | some (es, r) => some (.listL es, r)
      | Option.none => Option.none
    else if c = '(' then
      match skipWs tl with
      | d :: tl2 =>
        if d = ')' then some (.tupleL [], tl2)
        else
          match parseExpr f (d :: tl2) with
          | Option.none => Option.none
          | some (a, r) =>
            match skipWs r with
            | d2 :: tl3 =>
              if d2 = ')' then some (a, tl3)
              else if d2 = ',' then
                match parseElems f ')' tl3 with
                | some (es, r2) => some (.tupleL (a :: es), r2)
                | Option.none => Option.none
              else Option.none
            | [] => Option.none
      | [] => Option.none
    else if c = braceO then
      match skipWs tl with
      | d :: tl2 =>
        if d = braceC then some (.dictL [], tl2)
        else
          match parseExpr f (d :: tl2) with
          | Option.none => Option.none
          | some (a, r) =>
            match skipWs r with
            | d2 :: tl3 =>
              if d2 = ':' then
                match parseExpr f tl3 with
                | Option.none => Option.none
                | some (v, r2) =>
                  match skipWs r2 with
                  | d3 :: tl4 =>
                    if d3 = braceC then some (.dictL [(a, v)], tl4)
                    else if d3 = ',' then
                      match parsePairs f tl4 with
                      | some (ps, r3) => some (.dictL ((a, v) :: ps), r3)
                      | Option.none => Option.none
                    else Option.none
                  | [] => Option.none
              else if d2 = ',' then
                match parseElems f braceC tl3 with
                | some (es, r2) => some (.setL (a :: es), r2)
                | Option.none => Option.none
              else if d2 = braceC then some (.setL [a], tl3)
              else Option.none
            | [] => Option.none
      | [] => Option.none
    else Option.none

/-- Comma-separated expressions up to the closing character (empty lists
and trailing commas allowed, as in Python). -/
def parseElems : Nat → Char → List Char → Option (List Ast × List Char)
  | 0, _, _ => Option.none
  | f + 1, close, cs =>
    match skipWs cs with
    | c :: tl =>
      if c = close then some ([], tl)
      else
        match parseExpr f (c :: tl) with
        | Option.none => Option.none
        | some (a, r) =>
          match skipWs r with
          | c2 :: tl2 =>
            if c2 = ',' then
              match parseElems f close tl2 with
              | some (es, r2) => some (a :: es, r2)
              | Option.none => Option.none
            else if c2 = close then some ([a], tl2)
            else Option.none
          | [] => Option.none
    | [] => Option.none

/-- Comma-separated `key : value` pairs up to the closing brace (trailing
commas allowed). -/
def parsePairs : Nat → List Char → Option (List (Ast × Ast) × List Char)
  | 0, _ => Option.none
  | f + 1, cs =>
    match skipWs cs with
    | c :: tl =>
      if c = braceC then some ([], tl)
      else
        match parseExpr f (c :: tl) with
        | Option.none => Option.none
        | some (k, r) =>
          match skipWs r with
          | c2 :: tl2 =>
            if c2 = ':' then
              match parseExpr f tl2 with
              | Option.none => Option.none
              | some (v, r2) =>
                match skipWs r2 with
                | c3 :: tl3 =>
                  if c3 = ',' then
                    match parsePairs f tl3 with
                    | some (ps, r3) => some ((k, v) :: ps, r3)
                    | Option.none => Option.none
                  else if c3 = braceC then some ([(k, v)], tl3)
                  else Option.none
                | [] => Option.none
            else Option.none
          | [] => Option.none
    | [] => Option.none
end

/-- Model of `ast.parse(value, mode="eval")`: parse the whole token as one
expression; leftover input is a `SyntaxError`.  The fuel budget of
`8 * (length + 1)` strictly dominates the recursion depth of the grammar
above, so exhaustion is unreachable. -/
def pyParse (s : String) : Except PErr Ast :=
  match parseExpr (8 * (s.length + 1)) s.toList with
  | some (a, r) => if (skipWs r).isEmpty then .ok a else .error .syntaxError
  | Option.none => .error .syntaxError

/-- Is an identifier one of the three reserved constant spellings tested
by `_Replacement` (`parser.py` line 302)? -/
def isKeywordId (id : String) : Bool :=
  id = "True" || id = "False" || id = "None"

/-- Model of `_Replacement` (`parser.py` lines 291-304): a `Name` node
whose spelling is not reserved becomes a string literal holding its own
spelling; every other node is returned unchanged. -/
def Replacement : Ast → Ast
  | .name id => if isKeywordId id then .name id else .constStr id
  | a => a

mutual
/-- Model of the rewriting walk of `_LiteralEval` (lines 274-283): every
`Name` child anywhere in the tree is replaced via `Replacement`. -/
def replaceNames : Ast → Ast
  | .name id => Replacement (.name id)
  | .listL es => .listL (replaceNamesL es)
  | .tupleL es => .tupleL (replaceNamesL es)
  | .setL es => .setL (replaceNamesL es)
  | .dictL ps => .dictL (replaceNamesP ps)
  | .binOp l r => .binOp (replaceNames l) (replaceNames r)
  | .unaryNeg e => .unaryNeg (replaceNames e)
  | a => a

/-- `replaceNames` over a list of children. -/
def replaceNamesL : List Ast → List Ast
  | [] => []
  | e :: es => replaceNames e :: replaceNamesL es

/-- `replaceNames` over dict key/value children. -/
def replaceNamesP : List (Ast × Ast) → List (Ast × Ast)
  | [] => []
  | (k, v) :: ps => (replaceNames k, replaceNames v) :: replaceNamesP ps
end

mutual
/-- Model of `ast.literal_eval` on the rewritten tree: constants and
containers evaluate; a surviving `Name` node is the name-resolution
failure (`ValueError: malformed node`, distinguished here as
`malformedName`); any operator other than unary minus on an integer is
`malformedNode`; unhashable set elements and dict keys raise `TypeError`
at insertion time, exactly where CPython's `set(...)`/`dict(...)`
constructors raise. -/
def litEvalAst : Ast → Except PErr PyVal
  | .constInt n => .ok (.intV n)
  | .constStr s => .ok (.strV s)
  | .constBool b => .ok (.boolV b)
  | .constNone => .ok .noneV
  | .constBytes bs => .ok (.bytesV bs)
  | .name _ => .error (.valueError .malformedName)
  | .binOp _ _ => .error (.valueError .malformedNode)
  | .unaryNeg e =>
    (match litEvalAst e with
     | .ok (.intV n) => .ok (.intV (-n))
     | .ok _ => .error (.valueError .malformedNode)
     | .error er => .error er)
  | .listL es =>
    (match litEvalSeq es with
     | .ok vs => .ok (.listV vs)
     | .error er => .error er)
  | .tupleL es =>
    (match litEvalSeq es with
     | .ok vs => .ok (.tupleV vs)
     | .error er => .error er)
  | .setL es =>
    (match litEvalSetSeq es with
     | .ok vs => .ok (.setV (setBuild [] vs))
     | .error er => .error er)
  | .dictL ps =>
    (match litEvalPairs ps with
     | .ok qs => .ok (.dictV (dictBuild [] qs))
     | .error er => .error er)

/-- Left-to-right evaluation of list/tuple elements; the first failure
aborts the container. -/
def litEvalSeq : List Ast → Except PErr (List PyVal)
  | [] => .ok []
  | e :: es =>
    match litEvalAst e with
    | .error er => .error er
    | .ok v =>
      match litEvalSeq es with
      | .error er => .error er
      | .ok vs => .ok (v :: vs)

/-- Left-to-right evaluation of set elements with the hashability check
performed at each insertion, before the next element is evaluated. -/
def litEvalSetSeq : List Ast → Except PErr (List PyVal)
  | [] => .ok []
  | e :: es =>
    match litEvalAst e with
    | .error er => .error er
    | .ok v =>
      if pyHashable v then
        match litEvalSetSeq es with
        | .error er => .error er
        | .ok vs => .ok (v :: vs)
      else .error .typeError

/-- Left-to-right evaluation of dict pairs (key then value) with the key
hashability check performed before the next pair is evaluated. -/
def litEvalPairs : List (Ast × Ast) → Except PErr (List (PyVal × PyVal))
  | [] => .ok []
  | (ka, va) :: ps =>
    match litEvalAst ka with
    | .error er => .error er
    | .ok k =>
      match litEvalAst va with
      | .error er => .error er
      | .ok v =>
        if pyHashable k then
          match litEvalPairs ps with
          | .error er => .error er
          | .ok qs => .ok ((k, v) :: qs)
        else .error .typeError
end

/-- Is the root of the tree a binary operation? -/
def isBinOpAst : Ast → Bool
  | .binOp _ _ => true
  | _ => false

/-- Model of `_LiteralEval` (`parser.py` lines 251-288): parse the token,
reject a `BinOp` root with a `ValueError`, rewrite bare names to string
literals, then evaluate the tree as a literal. -/
def LiteralEvalStr (value : String) : Except PErr PyVal :=
  match pyParse value with
  | .error e => .error e
  | .ok root =>
    if isBinOpAst root then .error (.valueError .rootBinOp)
    else litEvalAst (replaceNames root)

/-- Model of `DefaultParseValue` (`parser.py` lines 231-248): the literal
value when `_LiteralEval` succeeds; the original token as an opaque string
when it raises `SyntaxError` or `ValueError`; any other exception
(`TypeError` from an unhashable key, for instance) propagates — the
`except` clause at line 246 names only those two classes. -/
def DefaultParseValue (value : String) : Except PErr PyVal :=
  match LiteralEvalStr value with
  | .ok v => .ok v
  | .error (.valueError _) => .ok (.strV value)
  | .error .syntaxError => .ok (.strV value)
  | .error e => .error e

mutual
/-- Model of Python `repr` on the modelled values (quote-escaping corner
cases aside), used by `str(...)` on non-strings. -/
def pyRepr : PyVal → String
  | .intV n => toString n
  | .strV s => String.mk [quoteS] ++ s ++ String.mk [quoteS]
  | .boolV b => if b then "True" else "False"
  | .noneV => "None"
  | .bytesV bs => "b" ++ String.mk [quoteS] ++ String.mk (bs.map Char.ofNat) ++ String.mk [quoteS]
  | .listV xs => "[" ++ String.intercalate ", " (pyReprL xs) ++ "]"
  | .tupleV [] => "()"
  | .tupleV [x] => "(" ++ pyRepr x ++ ",)"
  | .tupleV xs => "(" ++ String.intercalate ", " (pyReprL xs) ++ ")"
  | .setV [] => "set()"
  | .setV xs => String.mk [braceO] ++ String.intercalate ", " (pyReprL xs) ++ String.mk [braceC]
  | .dictV ps => String.mk [braceO] ++ String.intercalate ", " (pyReprP ps) ++ String.mk [braceC]

/-- `pyRepr` of every element. -/
def pyReprL : List PyVal → List String
  | [] => []
  | x :: xs => pyRepr x :: pyReprL xs

/-- `pyRepr` of every `key: value` entry. -/
def pyReprP : List (PyVal × PyVal) → List String
  | [] => []
  | (k, v) :: ps => (pyRepr k ++ ": " ++ pyRepr v) :: pyReprP ps
end

/-- Model of Python `str(...)`: identity on strings, `repr`-style
rendering otherwise.  It is total — the `str` conversion never fails. -/
def pyStr : PyVal → String
  | .strV s => s
  | v => pyRepr v

/-- Strip leading and trailing spaces (Python's `int` strips all
whitespace; the engine's tokens only ever contain spaces). -/
def trimChars (cs : List Char) : List Char :=
  ((cs.dropWhile (· = ' ')).reverse.dropWhile (· = ' ')).reverse

/-- All-digit run to a number, if nonempty. -/
def allDigitsToNat (ds : List Char) : Option Nat :=
  if !ds.isEmpty && ds.all Char.isDigit then some (digitsToNat ds) else Option.none

/-- Model of Python `int(s)` on a string: optional sign, then decimal
digits (digit-group underscores are outside the modelled fragment). -/
def parseIntStr (s : String) : Option Int :=
  match trimChars s.toList with
  | '+' :: rest => (allDigitsToNat rest).map (fun n => (n : Int))
  | '-' :: rest => (allDigitsToNat rest).map (fun n => -(n : Int))
  | cs => (allDigitsToNat cs).map (fun n => (n : Int))

/-- Model of calling `int(...)` on a value: ints pass through, booleans
coerce, strings and byte strings parse as decimal (a failure is the
`ValueError` the union loop catches), anything else is a `TypeError`. -/
def IntConv : PyVal → Except PErr PyVal
  | .intV n => .ok (.intV n)
  | .boolV b => .ok (.intV (if b then 1 else 0))
  | .strV s =>
    (match parseIntStr s with
     | some n => .ok (.intV n)
     | Option.none => .error (.valueError (.cannotParseInt s)))
  | .bytesV bs =>
    (match parseIntStr (String.mk (bs.map Char.ofNat)) with
     | some n => .ok (.intV n)
     | Option.none => .error (.valueError (.cannotParseInt (String.mk (bs.map Char.ofNat)))))
  | _ => .error .typeError

/-- The boolean entry of `TypeToParser` (`parser.py` line 216):
`lambda value: value == "True" or value == True`. -/
def BoolConv (v : PyVal) : Bool :=
  pyEq v (.strV "True") || pyEq v (.boolV true)

/-- Big-endian `n.to_bytes(8, "big")` for `0 ≤ n < 2^64`. -/
def intToBytes8 (n : Nat) : List Nat :=
  [n / 256 ^ 7 % 256, n / 256 ^ 6 % 256, n / 256 ^ 5 % 256, n / 256 ^ 4 % 256,
   n / 256 ^ 3 % 256, n / 256 ^ 2 % 256, n / 256 % 256, n % 256]

/-- Does the string start with a bytes-literal lead (`b"` or `b'`)? -/
def strHasBytesLead (s : String) : Bool :=
  charsLead ['b', quoteD] s.toList || charsLead ['b', quoteS] s.toList

/-- Model of `_BytesParser` (`parser.py` lines 200-210).  Only a string
has `.startswith`: a bytes input hits `startswith` with a `str` argument
(`TypeError`), any other input lacks the attribute (`AttributeError`) —
so the `int` branch is reachable only through a literal-parsed value.
UTF-8 encoding agrees with code points on the ASCII fragment modelled. -/
def BytesConv : PyVal → Except PErr PyVal
  | .strV s =>
    (match (if strHasBytesLead s then DefaultParseValue s else .ok (.strV s)) with
     | .error e => .error e
     | .ok (.strV s2) => .ok (.bytesV (s2.toList.map Char.toNat))
     | .ok (.bytesV bs) => .ok (.bytesV bs)
     | .ok (.intV n) =>
       if n < 0 || (2 : Int) ^ 64 ≤ n then .error .overflowError
       else .ok (.bytesV (intToBytes8 n.toNat))
     | .ok _ => .error (.valueError .bytesUnsupported))
  | .bytesV _ => .error .typeError
  | _ => .error .attributeError

/-- `TypeToParser.get(t, t)(v)` (`parser.py` lines 213-218): the
registered converters for `bool` and `bytes`, and otherwise the type
called as its own converter — `int(v)`/`str(v)` convert, while calling
`NoneType`, `typing.Any`, a `TypeVar` instance, `Ellipsis`, or a union
type with one argument raises `TypeError`.  (`datetime`/`date` entries
are not modelled; parameterized generics never reach this lookup, the
engine dispatches them through `IsGenericAlias` first.) -/
def TypeToParserGet (t : PyType) (v : PyVal) : Except PErr PyVal :=
  match t with
  | .boolT => .ok (.boolV (BoolConv v))
  | .bytesT => BytesConv v
  | .intT => IntConv v
  | .strT => .ok (.strV (pyStr v))
  | _ => .error .typeError

/-- Does the annotation carry an `__origin__` attribute?  Classic
`Union[...]` and the parameterized containers do; a `types.UnionType`
instance (`X | Y`) does not (verified against CPython 3.10-3.13), and
plain types do not. -/
def hasOriginAttr : PyType → Bool
  | .union false _ => true
  | .listT _ => true
  | .tupleT _ => true
  | .setT _ => true
  | .dictT _ _ => true
  | _ => false

/-- Is the annotation a `types.UnionType` instance (`t.__class__ ==
UnionType`)? -/
def isUnionTypeInst : PyType → Bool
  | .union true _ => true
  | _ => false

/-- Model of `IsGenericAlias` (`parser.py` lines 95-102): on a runtime
version starting `3.11.` a `types.UnionType` instance counts; otherwise
only `"__origin__" in dir(t)` decides. -/
def IsGenericAlias (ver : String) (t : PyType) : Bool :=
  (isVer311 ver && isUnionTypeInst t) || hasOriginAttr t

/-- Model of `_DeGenericAlias` (`parser.py` lines 77-92): the
`(origin, args)` of a generic alias.  On a `3.11.`-prefixed runtime a
`types.UnionType` instance resolves to the `Union` origin; otherwise
`t.__origin__` is read, which raises `AttributeError` on a plain type and
on a `types.UnionType` instance.  (The `return t, []` fall-through at
line 92 and the missing-`__args__` branch at lines 89-90 are unreachable
for the parameterized annotations modelled here.) -/
def DeGenericAlias (ver : String) (t : PyType) : Except PErr (Origin × List PyType) :=
  if isVer311 ver && isUnionTypeInst t then
    match t with
    | .union _ args => .ok (.unionO, args)
    | _ => .error .attributeError
  else
    match t with
    | .union false args => .ok (.unionO, args)
    | .listT args => .ok (.listO, args)
    | .tupleT args => .ok (.tupleO, args)
    | .setT args => .ok (.setO, args)
    | .dictT k v => .ok (.dictO, [k, v])
    | _ => .error .attributeError

/-- Is the annotation `type(None)`? -/
def isNoneT : PyType → Bool
  | .noneT => true
  | _ => false

/-- Is the annotation a `TypeVar` instance? -/
def isTypeVarInst : PyType → Bool
  | .typeVarT => true
  | _ => false

/-- Is the annotation `typing.Any`? -/
def isAnyT : PyType → Bool
  | .anyT => true
  | _ => false

/-- `type(None) in args`. -/
def hasNoneT (args : List PyType) : Bool := args.any isNoneT

/-- Is the value Python `None`? -/
def isNoneVal : PyVal → Bool
  | .noneV => true
  | _ => false

/-- Model of Python iteration/`len` over a sized value: a string yields
its characters (as one-character strings), bytes yield ints, a dict
yields its keys, the containers yield their elements; numbers, booleans
and `None` are unsized (`len` raises `TypeError`).  CPython iterates a
set in hash order; the canonical stored order stands in for it. -/
def pyElems : PyVal → Option (List PyVal)
  | .strV s => some (s.toList.map (fun c => PyVal.strV (String.mk [c])))
  | .bytesV bs => some (bs.map PyVal.intV)
  | .listV xs => some xs
  | .tupleV xs => some xs
  | .setV xs => some xs
  | .dictV ps => some (ps.map Prod.fst)
  | _ => Option.none

/-- Model of the `set(res)` constructor call: insert left to right,
raising `TypeError` on an unhashable element. -/
def setCtor : List PyVal → List PyVal → Except PErr PyVal
  | [], acc => .ok (.setV acc)
  | v :: rest, acc =>
      if pyHashable v then setCtor rest (setInsert acc v) else .error .typeError

/-- Python `args * n` on an argument tuple. -/
def listMul (l : List PyType) : Nat → List PyType
  | 0 => []
  | n + 1 => l ++ listMul l n

mutual
/-- Computable structural size of an annotation (the derived `SizeOf` of
a nested inductive is noncomputable); used only as a termination
measure. -/
def ptSize : PyType → Nat
  | .union _ args => 1 + ptSizeL args
  | .listT args => 1 + ptSizeL args
  | .tupleT args => 1 + ptSizeL args
  | .setT args => 1 + ptSizeL args
  | .dictT k v => 1 + ptSize k + ptSize v
  | _ => 1

/-- Size of an annotation list. -/
def ptSizeL : List PyType → Nat
  | [] => 1
  | t :: ts => 1 + ptSize t + ptSizeL ts
end

/-- Largest element size in an annotation list. -/
def maxSizeT : List PyType → Nat
  | [] => 0
  | t :: ts => max (ptSize t) (maxSizeT ts)

theorem ptSize_pos (t : PyType) : 0 < ptSize t := by
  cases t <;> simp [ptSize]

theorem maxSizeT_lt_ptSizeL (l : List PyType) : maxSizeT l < ptSizeL l := by
  induction l with
  | nil => simp [maxSizeT, ptSizeL]
  | cons x xs ih => simp [maxSizeT, ptSizeL]; omega

theorem maxSizeT_append (a b : List PyType) :
    maxSizeT (a ++ b) = max (maxSizeT a) (maxSizeT b) := by
  induction a with
  | nil => simp [maxSizeT]
  | cons x xs ih => simp [maxSizeT, ih]; omega

theorem maxSizeT_listMul_le (l : List PyType) (n : Nat) :
    maxSizeT (listMul l n) ≤ maxSizeT l := by
  induction n with
  | zero => simp [listMul, maxSizeT]
  | succ n ih => simp [listMul, maxSizeT_append]; omega

theorem deGeneric_size {ver : String} {t : PyType} {o : Origin}
    {args : List PyType} (h : DeGenericAlias ver t = .ok (o, args)) :
    ptSizeL args < ptSize t ∨ (o = .dictO ∧ ∃ k v, t = .dictT k v ∧ args = [k, v]) := by
  cases t with
  | union sugar a =>
    cases sugar with
    | true =>
      by_cases hv : isVer311 ver = true
      · simp [DeGenericAlias, isUnionTypeInst, hv] at h
        obtain ⟨-, h2⟩ := h
        subst h2
        left; simp [ptSize]
      · simp [DeGenericAlias, isUnionTypeInst, hv] at h
    | false =>
      simp [DeGenericAlias, isUnionTypeInst] at h
      obtain ⟨-, h2⟩ := h
      subst h2
      left; simp [ptSize]
  | listT a =>
    simp [DeGenericAlias, isUnionTypeInst] at h
    obtain ⟨-, h2⟩ := h
    subst h2
    left; simp [ptSize]
  | tupleT a =>
    simp [DeGenericAlias, isUnionTypeInst] at h
    obtain ⟨-, h2⟩ := h
    subst h2
    left; simp [ptSize]
  | setT a =>
    simp [DeGenericAlias, isUnionTypeInst] at h
    obtain ⟨-, h2⟩ := h
    subst h2
    left; simp [ptSize]
  | dictT k v =>
    simp [DeGenericAlias, isUnionTypeInst] at h
    right; exact ⟨h.1.symm, k, v, rfl, h.2.symm⟩
  | intT => simp [DeGenericAlias, isUnionTypeInst] at h
  | strT => simp [DeGenericAlias, isUnionTypeInst] at h
  | boolT => simp [DeGenericAlias, isUnionTypeInst] at h
  | bytesT => simp [DeGenericAlias, isUnionTypeInst] at h
  | noneT => simp [DeGenericAlias, isUnionTypeInst] at h
  | anyT => simp [DeGenericAlias, isUnionTypeInst] at h
  | typeVarT => simp [DeGenericAlias, isUnionTypeInst] at h
  | ellipsisT => simp [DeGenericAlias, isUnionTypeInst] at h

/-- The `bytes`-origin branch of `_ParseConvert` (lines 191-196):
strings encode, bytes pass through, anything else is rejected. -/
def convBytesOrigin (parsed : PyVal) : Except PErr PyVal :=
  match parsed with
  | .strV s => .ok (.bytesV (s.toList.map Char.toNat))
  | .bytesV bs => .ok (.bytesV bs)
  | _ => .error (.valueError .hintMismatch)

mutual
/-- Model of `_ParseConvert` (`parser.py` lines 127-197): convert an
already literal-parsed value against a parameterized annotation,
dispatching on the alias origin.  Each branch is its own definition:
`ConvUnionStep` (lines 129-145), `ConvSeqLike` (lines 146-168),
`ConvDictLike` (lines 169-190), `convBytesOrigin` (lines 191-196); a
`Dict` origin whose argument list fails to unpack into a key/value pair
mirrors the line-171 unpacking failure (unreachable for real
annotations). -/
def ParseConvert (ver : String) (parsed : PyVal) (t : PyType) : Except PErr PyVal :=
  match hde : DeGenericAlias ver t with
  | .error e => .error e
  | .ok (.unionO, args) => ConvUnionStep ver parsed args
  | .ok (.tupleO, args) => ConvSeqLike ver .tupleO args parsed
  | .ok (.listO, args) => ConvSeqLike ver .listO args parsed
  | .ok (.setO, args) => ConvSeqLike ver .setO args parsed
  | .ok (.dictO, [kt, vt]) => ConvDictLike ver kt vt parsed
  | .ok (.dictO, _) => .error (.valueError .notSupported)
  | .ok (.bytesO, _) => convBytesOrigin parsed
termination_by (ptSize t, 0, 0)
decreasing_by
  · rcases deGeneric_size hde with hs | ⟨hcon, -⟩
    · exact Prod.Lex.left _ _ (by omega)
    · exact absurd hcon (by simp)
  · rcases deGeneric_size hde with hs | ⟨hcon, -⟩
    · have h2 := maxSizeT_lt_ptSizeL args
      exact Prod.Lex.left _ _ (by omega)
    · exact absurd hcon (by simp)
  · rcases deGeneric_size hde with hs | ⟨hcon, -⟩
    · have h2 := maxSizeT_lt_ptSizeL args
      exact Prod.Lex.left _ _ (by omega)
    · exact absurd hcon (by simp)
  · rcases deGeneric_size hde with hs | ⟨hcon, -⟩
    · have h2 := maxSizeT_lt_ptSizeL args
      exact Prod.Lex.left _ _ (by omega)
    · exact absurd hcon (by simp)
  · rcases deGeneric_size hde with hs | ⟨-, k, v, ht, ha⟩
    · simp [ptSizeL] at hs
      have h2 := ptSize_pos kt
      have h3 := ptSize_pos vt
      exact Prod.Lex.left _ _ (by omega)
    · cases ha
      subst ht
      simp [ptSize]
      exact Prod.Lex.left _ _ (by omega)

/-- The `Union` branch of `_ParseConvert` (lines 129-145): an
already-parsed `None` with a `None` variant passes through, otherwise
the variant loop runs. -/
def ConvUnionStep (ver : String) (parsed : PyVal) (args : List PyType) : Except PErr PyVal :=
  if hasNoneT args && isNoneVal parsed then .ok .noneV
  else TryConvUnion ver parsed args
termination_by (ptSizeL args, 4, 0)
decreasing_by
  · exact Prod.Lex.right _ (Prod.Lex.left _ _ (by omega))

/-- The variant loop of `_ParseConvert` (lines 133-145): non-`None`
variants are tried in order; a `ValueError` moves to the next variant,
any other exception propagates; exhaustion raises the line-145
`ValueError`. -/
def TryConvUnion (ver : String) (parsed : PyVal) (args : List PyType) : Except PErr PyVal :=
  match args with
  | [] => .error (.valueError .noVariantMatched)
  | a :: rest =>
    if isNoneT a then TryConvUnion ver parsed rest
    else
      match (if IsGenericAlias ver a then ParseConvert ver parsed a
             else TypeToParserGet a parsed) with
      | .ok v => .ok v
      | .error (.valueError _) => TryConvUnion ver parsed rest
      | .error e => .error e
termination_by (ptSizeL args, 3, 0)
decreasing_by
  all_goals exact Prod.Lex.left _ _ (by simp [ptSizeL] <;> omega)

/-- The `Tuple`/`List`/`Set` branch of `_ParseConvert` (lines 146-168):
pick the result container from the origin, broadcast the argument tuple
across the parsed length for non-tuples (`args *= len(parsed)`), check
the arity, convert the elements, and repackage. -/
def ConvSeqLike (ver : String) (origin : Origin) (args : List PyType) (parsed : PyVal) :
    Except PErr PyVal :=
  match pyElems parsed with
  | Option.none => .error .typeError
  | some vs =>
    let args2 := if origin = .tupleO then args else listMul args vs.length
    if vs.length ≠ args2.length then .error (.valueError .arityMismatch)
    else
      match ConvElems ver args2 vs with
      | .error e => .error e
      | .ok rs =>
        if origin = .tupleO then .ok (.tupleV rs)
        else if origin = .setO then setCtor rs []
        else .ok (.listV rs)
termination_by (maxSizeT args + 1, 3, 0)
decreasing_by
  · apply Prod.Lex.left
    have h2 := maxSizeT_listMul_le args vs.length
    by_cases ho : origin = Origin.tupleO
    · simp [ho]
    · simp [ho]
      omega

/-- The zip loop of `_ParseConvert` (lines 158-167): elements are
converted left to right and the first failure aborts the container. -/
def ConvElems (ver : String) : List PyType → List PyVal → Except PErr (List PyVal)
  | t :: ts, v :: vs =>
    match ConvOne ver t v with
    | .error e => .error e
    | .ok Option.none => ConvElems ver ts vs
    | .ok (some r) =>
      match ConvElems ver ts vs with
      | .error e => .error e
      | .ok rs => .ok (r :: rs)
  | _, _ => .ok []
termination_by ts vs => (maxSizeT ts, 2, vs.length)
decreasing_by
  · have h1 : ptSize t ≤ maxSizeT (t :: ts) := Nat.le_max_left _ _
    rcases Nat.lt_or_eq_of_le h1 with h2 | h2
    · exact Prod.Lex.left _ _ h2
    · rw [h2]
      exact Prod.Lex.right _ (Prod.Lex.left _ _ (by omega))
  · have h1 : maxSizeT ts ≤ maxSizeT (t :: ts) := Nat.le_max_right _ _
    rcases Nat.lt_or_eq_of_le h1 with h2 | h2
    · exact Prod.Lex.left _ _ h2
    · rw [h2]
      exact Prod.Lex.right _ (Prod.Lex.right _ (Nat.lt_succ_self _))

/-- One element conversion of the zip loop of `_ParseConvert`
(lines 158-167): generic aliases recurse; a `None` annotation accepts
only `None` and contributes nothing to the result (the source appends
nothing for it); `TypeVar` instances and `typing.Any` pass the value
through; everything else goes through the converter lookup. -/
def ConvOne (ver : String) (t : PyType) (v : PyVal) : Except PErr (Option PyVal) :=
  if IsGenericAlias ver t then
    match ParseConvert ver v t with
    | .ok r => .ok (some r)
    | .error e => .error e
  else if isNoneT t then
    if isNoneVal v then .ok Option.none else .error (.valueError .noneElemMismatch)
  else if isTypeVarInst t || isAnyT t then .ok (some v)
  else
    match TypeToParserGet t v with
    | .ok r => .ok (some r)
    | .error e => .error e
termination_by (ptSize t, 1, 0)
decreasing_by
  · exact Prod.Lex.right _ (Prod.Lex.left _ _ (by omega))

/-- The `Dict` branch of `_ParseConvert` (lines 169-190): the parsed
value must be a dict (`isinstance(parsed, Dict)`), whose pairs are then
converted. -/
def ConvDictLike (ver : String) (kt vt : PyType) (parsed : PyVal) : Except PErr PyVal :=
  match parsed with
  | .dictV ps => ConvPairs ver kt vt ps []
  | _ => .error (.valueError .hintMismatch)
termination_by (ptSize kt + ptSize vt, 4, 0)
decreasing_by
  · exact Prod.Lex.right _ (Prod.Lex.left _ _ (by omega))

/-- The dict loop of `_ParseConvert` (lines 174-190): each pair's key and
value are converted, then inserted (`res[res_key] = res_value`, raising
`TypeError` on an unhashable converted key); the first failure aborts the
whole mapping. -/
def ConvPairs (ver : String) (kt vt : PyType) :
    List (PyVal × PyVal) → List (PyVal × PyVal) → Except PErr PyVal
  | [], acc => .ok (.dictV acc)
  | (k, v) :: rest, acc =>
    match ConvKey ver kt k with
    | .error e => .error e
    | .ok rk =>
      match ConvVal ver vt v with
      | .error e => .error e
      | .ok rv =>
        if pyHashable rk then ConvPairs ver kt vt rest (dictInsert acc rk rv)
        else .error .typeError
termination_by ps acc => (ptSize kt + ptSize vt, 3, ps.length)
decreasing_by
  · exact Prod.Lex.left _ _ (by have := ptSize_pos vt; omega)
  · exact Prod.Lex.left _ _ (by have := ptSize_pos kt; omega)
  · exact Prod.Lex.right _ (Prod.Lex.right _ (Nat.lt_succ_self _))

/-- The key conversion of the dict loop (`parser.py` lines 175-180):
`key_t == TypeVar` compares against the `TypeVar` class (false for every
modelled annotation) while `type(key_t) == TypeVar` passes a `TypeVar`
instance through unconverted. -/
def ConvKey (ver : String) (kt : PyType) (k : PyVal) : Except PErr PyVal :=
  if isTypeVarInst kt then .ok k
  else if IsGenericAlias ver kt then ParseConvert ver k kt
  else TypeToParserGet kt k
termination_by (ptSize kt, 4, 0)
decreasing_by
  · exact Prod.Lex.right _ (Prod.Lex.left _ _ (by omega))

/-- The value conversion of the dict loop (lines 182-187): the source
compares `value_t == TypeVar` — the class, not an instance — so a
`TypeVar`-instance value annotation is *not* passed through and instead
falls to the converter lookup (raising `TypeError` when called). -/
def ConvVal (ver : String) (vt : PyType) (v : PyVal) : Except PErr PyVal :=
  if IsGenericAlias ver vt then ParseConvert ver v vt
  else TypeToParserGet vt v
termination_by (ptSize vt, 4, 0)
decreasing_by
  · exact Prod.Lex.right _ (Prod.Lex.left _ _ (by omega))
end

/-- The container/bytes branch of `ParseComplexValue` (line 122):
literal-parse the token and convert the result against the annotation. -/
def ConvViaLiteral (ver value : String) (t : PyType) : Except PErr PyVal :=
  match DefaultParseValue value with
  | .ok parsed => ParseConvert ver parsed t
  | .error e => .error e

mutual
/-- Model of `ParseComplexValue` (`parser.py` lines 105-124): for a
`Union` origin, the absence-sentinel check followed by the variant loop
(`SentinelOrVariants`); for a container/bytes origin
(`issubclass(origin, (Dict, List, Set, Tuple, bytes))`), literal-parse
the token and convert via `_ParseConvert` (`ConvViaLiteral`).
(`origin == Optional` at lines 107-108 never holds at runtime — CPython
normalizes a subscripted `Optional[X]` to `Union[X, None]` — so only the
`Union` conjunct is live.) -/
def ParseComplexValue (ver : String) (value : String) (t : PyType) : Except PErr PyVal :=
  match hde : DeGenericAlias ver t with
  | .error e => .error e
  | .ok (.unionO, args) => SentinelOrVariants ver value args
  | .ok (_, _) => ConvViaLiteral ver value t
termination_by (ptSize t, 2)
decreasing_by
  · rcases deGeneric_size hde with hs | ⟨hcon, -⟩
    · exact Prod.Lex.left _ _ (by omega)
    · exact absurd hcon (by simp)

/-- Lines 107-109 of `ParseComplexValue`: a token spelling the absence
sentinel with an absence variant available succeeds immediately with
`None`; otherwise the variant loop runs. -/
def SentinelOrVariants (ver : String) (value : String) (args : List PyType) :
    Except PErr PyVal :=
  if value = "None" && hasNoneT args then .ok .noneV
  else TryVariants ver value args
termination_by (ptSizeL args, 1)
decreasing_by
  · exact Prod.Lex.right _ (by omega)

/-- The variant loop of `ParseComplexValue` (lines 111-120, with the
exhaustion `raise` at line 124): generic variants recurse through
`ParseComplexValue`, `type(None)` variants are skipped, scalar variants
apply `SpecTypeParseValueGen` to the raw token; only a `ValueError`
moves on to the next variant. -/
def TryVariants (ver : String) (value : String) (args : List PyType) : Except PErr PyVal :=
  match args with
  | [] => .error (.valueError .noVariantMatched)
  | a :: rest =>
    if IsGenericAlias ver a then
      match ParseComplexValue ver value a with
      | .ok v => .ok v
      | .error (.valueError _) => TryVariants ver value rest
      | .error e => .error e
    else if isNoneT a then TryVariants ver value rest
    else
      match TypeToParserGet a (.strV value) with
      | .ok v => .ok v
      | .error (.valueError _) => TryVariants ver value rest
      | .error e => .error e
termination_by (ptSizeL args, 0)
decreasing_by
  all_goals exact Prod.Lex.left _ _ (by simp [ptSizeL] <;> omega)
end

/-- Model of `SpecTypeParseValueGen` (`parser.py` lines 221-228) applied
to a raw token: generic aliases dispatch to `ParseComplexValue`, plain
types go through the `TypeToParser` lookup (falling back to calling the
type itself). -/
def SpecTypeParseValueGen (ver : String) (t : PyType) (value : String) : Except PErr PyVal :=
  if IsGenericAlias ver t then ParseComplexValue ver value t
  else TypeToParserGet t (.strV value)

/-- Spelled out from the specification sentence for `Sum` conversion:
"try each non-absence variant in declaration order, recursively; first
success wins", amended by the code's abort behaviour — only a
`ValueError` moves to the next variant, any other exception aborts the
whole conversion; exhausting all variants is `NoVariantMatched`. -/
def FirstSuccessWins (ver : String) (value : String) : List PyType → Except PErr PyVal
  | [] => .error (.valueError .noVariantMatched)
  | a :: rest =>
    if isNoneT a then FirstSuccessWins ver value rest
    else
      match (if IsGenericAlias ver a then ParseComplexValue ver value a
             else TypeToParserGet a (.strV value)) with
      | .ok v => .ok v
      | .error (.valueError _) => FirstSuccessWins ver value rest
      | .error e => .error e

theorem isGeneric_of_noneT (ver : String) {a : PyType} (h : isNoneT a = true) :
    IsGenericAlias ver a = false := by
  cases a <;> simp [isNoneT] at h <;>
    simp [IsGenericAlias, isUnionTypeInst, hasOriginAttr]

theorem tryVariants_eq_firstSuccessWins (ver value : String) (args : List PyType) :
    TryVariants ver value args = FirstSuccessWins ver value args := by
  induction args with
  | nil => rw [TryVariants, FirstSuccessWins]
  | cons a rest ih =>
    rw [TryVariants, FirstSuccessWins]
    by_cases hn : isNoneT a = true
    · rw [isGeneric_of_noneT ver hn]
      simp [hn, ih]
    · have hn2 : isNoneT a = false := by
        cases hh : isNoneT a
        · rfl
        · exact absurd hh hn
      rw [hn2]
      by_cases hg : IsGenericAlias ver a = true
      · simp only [hg, if_true, Bool.false_eq_true, if_false]
        cases hres : ParseComplexValue ver value a with
        | ok v => rfl
        | error e =>
          cases e with
          | valueError k => exact ih
          | typeError => rfl
          | attributeError => rfl
          | overflowError => rfl
          | syntaxError => rfl
      · have hg2 : IsGenericAlias ver a = false := by
          cases hh : IsGenericAlias ver a
          · rfl
          · exact absurd hh hg
        simp only [hg2, Bool.false_eq_true, if_false]
        cases hres : TypeToParserGet a (.strV value) with
        | ok v => rfl
        | error e =>
          cases e with
          | valueError k => exact ih
          | typeError => rfl
          | attributeError => rfl
          | overflowError => rfl
          | syntaxError => rfl

theorem listMul_singleton (a : PyType) (n : Nat) :
    listMul [a] n = List.replicate n a := by
  induction n with
  | zero => rfl
  | succ n ih => simp [listMul, List.replicate, ih]

mutual
/-- No `Name` leaf carries one of the three reserved spellings.  Trees
produced by the host parser always satisfy this: CPython lexes
`True`/`False`/`None` as keywords, never as identifiers. -/
def noKeywordNames : Ast → Bool
  | .name id => !isKeywordId id
  | .listL es => noKeywordNamesL es
  | .tupleL es => noKeywordNamesL es
  | .setL es => noKeywordNamesL es
  | .dictL ps => noKeywordNamesP ps
  | .binOp l r => noKeywordNames l && noKeywordNames r
  | .unaryNeg e => noKeywordNames e
  | _ => true

/-- `noKeywordNames` over children. -/
def noKeywordNamesL : List Ast → Bool
  | [] => true
  | e :: es => noKeywordNames e && noKeywordNamesL es

/-- `noKeywordNames` over dict pairs. -/
def noKeywordNamesP : List (Ast × Ast) → Bool
  | [] => true
  | (k, v) :: ps => noKeywordNames k && noKeywordNames v && noKeywordNamesP ps
end

mutual
/-- The tree contains no `Name` node at all. -/
def nameFree : Ast → Bool
  | .name _ => false
  | .listL es => nameFreeL es
  | .tupleL es => nameFreeL es
  | .setL es => nameFreeL es
  | .dictL ps => nameFreeP ps
  | .binOp l r => nameFree l && nameFree r
  | .unaryNeg e => nameFree e
  | _ => true

/-- `nameFree` over children. -/
def nameFreeL : List Ast → Bool
  | [] => true
  | e :: es => nameFree e && nameFreeL es

/-- `nameFree` over dict pairs. -/
def nameFreeP : List (Ast × Ast) → Bool
  | [] => true
  | (k, v) :: ps => nameFree k && nameFree v && nameFreeP ps
end

mutual
theorem replaceNames_nameFree (a : Ast) (h : noKeywordNames a = true) :
    nameFree (replaceNames a) = true := by
  cases a with
  | name id =>
    simp [noKeywordNames] at h
    simp [replaceNames, Replacement, h, nameFree]
  | listL es => simp [replaceNames, nameFree, noKeywordNames] at h ⊢
                exact replaceNamesL_nameFree es h
  | tupleL es => simp [replaceNames, nameFree, noKeywordNames] at h ⊢
                 exact replaceNamesL_nameFree es h
  | setL es => simp [replaceNames, nameFree, noKeywordNames] at h ⊢
               exact replaceNamesL_nameFree es h
  | dictL ps => simp [replaceNames, nameFree, noKeywordNames] at h ⊢
                exact replaceNamesP_nameFree ps h
  | binOp l r =>
    simp [noKeywordNames] at h
    simp [replaceNames, nameFree,
          replaceNames_nameFree l h.1, replaceNames_nameFree r h.2]
  | unaryNeg e =>
    simp [noKeywordNames] at h
    simp [replaceNames, nameFree, replaceNames_nameFree e h]
  | constInt n => simp [replaceNames, nameFree]
  | constStr s => simp [replaceNames, nameFree]
  | constBool b => simp [replaceNames, nameFree]
  | constNone => simp [replaceNames, nameFree]
  | constBytes bs => simp [replaceNames, nameFree]

theorem replaceNamesL_nameFree (es : List Ast) (h : noKeywordNamesL es = true) :
    nameFreeL (replaceNamesL es) = true := by
  cases es with
  | nil => simp [replaceNamesL, nameFreeL]
  | cons e es =>
    simp [noKeywordNamesL] at h
    simp [replaceNamesL, nameFreeL,
          replaceNames_nameFree e h.1, replaceNamesL_nameFree es h.2]

theorem replaceNamesP_nameFree (ps : List (Ast × Ast)) (h : noKeywordNamesP ps = true) :
    nameFreeP (replaceNamesP ps) = true := by
  cases ps with
  | nil => simp [replaceNamesP, nameFreeP]
  | cons p ps =>
    cases p with
    | mk k v =>
      simp [noKeywordNamesP] at h
      simp [replaceNamesP, nameFreeP,
            replaceNames_nameFree k h.1.1, replaceNames_nameFree v h.1.2,
            replaceNamesP_nameFree ps h.2]
end

mutual
theorem litEval_no_nameError (a : Ast) (h : nameFree a = true) :
    litEvalAst a ≠ .error (.valueError .malformedName) := by
  cases a with
  | name id => simp [nameFree] at h
  | constInt n => simp [litEvalAst]
  | constStr s => simp [litEvalAst]
  | constBool b => simp [litEvalAst]
  | constNone => simp [litEvalAst]
  | constBytes bs => simp [litEvalAst]
  | binOp l r => simp [litEvalAst]
  | unaryNeg e =>
    simp [nameFree] at h
    have ih := litEval_no_nameError e h
    rw [litEvalAst]
    cases he : litEvalAst e with
    | ok v => cases v <;> simp
    | error er =>
      simp only
      intro hc
      injection hc with h9
      subst h9
      exact ih he
  | listL es =>
    simp [nameFree] at h
    have ih := litEvalSeq_no_nameError es h
    rw [litEvalAst]
    cases he : litEvalSeq es with
    | ok vs => simp
    | error er =>
      simp only
      intro hc
      injection hc with h9
      subst h9
      exact ih he
  | tupleL es =>
    simp [nameFree] at h
    have ih := litEvalSeq_no_nameError es h
    rw [litEvalAst]
    cases he : litEvalSeq es with
    | ok vs => simp
    | error er =>
      simp only
      intro hc
      injection hc with h9
      subst h9
      exact ih he
  | setL es =>
    simp [nameFree] at h
    have ih := litEvalSetSeq_no_nameError es h
    rw [litEvalAst]
    cases he : litEvalSetSeq es with
    | ok vs => simp
    | error er =>
      simp only
      intro hc
      injection hc with h9
      subst h9
      exact ih he
  | dictL ps =>
    simp [nameFree] at h
    have ih := litEvalPairs_no_nameError ps h
    rw [litEvalAst]
    cases he : litEvalPairs ps with
    | ok qs => simp
    | error er =>
      simp only
      intro hc
      injection hc with h9
      subst h9
      exact ih he

theorem litEvalSeq_no_nameError (es : List Ast) (h : nameFreeL es = true) :
    litEvalSeq es ≠ .error (.valueError .malformedName) := by
  cases es with
  | nil => simp [litEvalSeq]
  | cons e es =>
    simp [nameFreeL] at h
    have ih1 := litEval_no_nameError e h.1
    have ih2 := litEvalSeq_no_nameError es h.2
    rw [litEvalSeq]
    cases he : litEvalAst e with
    | error er =>
      simp only
      intro hc
      injection hc with h9
      subst h9
      exact ih1 he
    | ok v =>
      simp only
      cases hr : litEvalSeq es with
      | error er =>
        simp only
        intro hc
        injection hc with h9
        subst h9
        exact ih2 hr
      | ok vs => simp

theorem litEvalSetSeq_no_nameError (es : List Ast) (h : nameFreeL es = true) :
    litEvalSetSeq es ≠ .error (.valueError .malformedName) := by
  cases es with
  | nil => simp [litEvalSetSeq]
  | cons e es =>
    simp [nameFreeL] at h
    have ih1 := litEval_no_nameError e h.1
    have ih2 := litEvalSetSeq_no_nameError es h.2
    rw [litEvalSetSeq]
    cases he : litEvalAst e with
    | error er =>
      simp only
      intro hc
      injection hc with h9
      subst h9
      exact ih1 he
    | ok v =>
      simp only
      by_cases hh : pyHashable v = true
      · simp only [hh, if_true]
        cases hr : litEvalSetSeq es with
        | error er =>
          simp only
          intro hc
          injection hc with h9
          subst h9
          exact ih2 hr
        | ok vs => simp
      · have hh2 : pyHashable v = false := by
          cases hhh : pyHashable v
          · rfl
          · exact absurd hhh hh
        simp [hh2]

theorem litEvalPairs_no_nameError (ps : List (Ast × Ast)) (h : nameFreeP ps = true) :
    litEvalPairs ps ≠ .error (.valueError .malformedName) := by
  cases ps with
  | nil => simp [litEvalPairs]
  | cons p ps =>
    cases p with
    | mk ka va =>
      simp [nameFreeP] at h
      have ih1 := litEval_no_nameError ka h.1.1
      have ih2 := litEval_no_nameError va h.1.2
      have ih3 := litEvalPairs_no_nameError ps h.2
      rw [litEvalPairs]
      cases hk : litEvalAst ka with
      | error er =>
        simp only
        intro hc
        injection hc with h9
        subst h9
        exact ih1 hk
      | ok k =>
        simp only
        cases hv : litEvalAst va with
        | error er =>
          simp only
          intro hc
          injection hc with h9
          subst h9
          exact ih2 hv
        | ok v =>
          simp only
          by_cases hh : pyHashable k = true
          · simp only [hh, if_true]
            cases hr : litEvalPairs ps with
            | error er =>
              simp only
              intro hc
              injection hc with h9
              subst h9
              exact ih3 hr
            | ok qs => simp
          · have hh2 : pyHashable k = false := by
              cases hhh : pyHashable k
              · rfl
              · exact absurd hhh hh
            simp [hh2]
end

/-- The dispatch table of `_ParseConvert` as a function of the resolved
`(origin, args)` pair; `ParseConvert_eq` identifies it with
`ParseConvert` once `_DeGenericAlias` has succeeded. -/
def ParseConvertBody (ver : String) (parsed : PyVal) :
    Origin × List PyType → Except PErr PyVal
  | (.unionO, args) => ConvUnionStep ver parsed args
  | (.tupleO, args) => ConvSeqLike ver .tupleO args parsed
  | (.listO, args) => ConvSeqLike ver .listO args parsed
  | (.setO, args) => ConvSeqLike ver .setO args parsed
  | (.dictO, [kt, vt]) => ConvDictLike ver kt vt parsed
  | (.dictO, _) => .error (.valueError .notSupported)
  | (.bytesO, _) => convBytesOrigin parsed

theorem ParseConvert_eq {ver : String} {parsed : PyVal} {t : PyType}
    {r : Origin × List PyType} (hde : DeGenericAlias ver t = .ok r) :
    ParseConvert ver parsed t = ParseConvertBody ver parsed r := by
  rw [ParseConvert]
  split
  · rename_i heq
    exact absurd (hde.symm.trans heq) (by simp)
  · rename_i heq
    have h2 := hde.symm.trans heq
    injection h2 with h3
    subst h3
    rfl
  · rename_i heq
    have h2 := hde.symm.trans heq
    injection h2 with h3
    subst h3
    rfl
  · rename_i heq
    have h2 := hde.symm.trans heq
    injection h2 with h3
    subst h3
    rfl
  · rename_i heq
    have h2 := hde.symm.trans heq
    injection h2 with h3
    subst h3
    rfl
  · rename_i heq
    have h2 := hde.symm.trans heq
    injection h2 with h3
    subst h3
    rfl
  · rename_i snd hne heq
    have h2 := hde.symm.trans heq
    injection h2 with h3
    subst h3
    cases snd with
    | nil => rfl
    | cons a tl =>
      cases tl with
      | nil => rfl
      | cons b tl2 =>
        cases tl2 with
        | nil => exact absurd rfl (hne a b)
        | cons c tl3 => rfl
  · rename_i heq
    have h2 := hde.symm.trans heq
    injection h2 with h3
    subst h3
    rfl

theorem ParseConvert_deErr {ver : String} {parsed : PyVal} {t : PyType}
    {e : PErr} (hde : DeGenericAlias ver t = .error e) :
    ParseConvert ver parsed t = .error e := by
  rw [ParseConvert]
  split
  · rename_i heq
    have h2 := hde.symm.trans heq
    injection h2 with h3
    rw [h3]
  all_goals
    rename_i heq
    exact absurd (hde.symm.trans heq) (by simp)

/-- The dispatch table of `ParseComplexValue` as a function of the
resolved `(origin, args)` pair. -/
def ParseComplexValueBody (ver value : String) (t : PyType) :
    Origin × List PyType → Except PErr PyVal
  | (.unionO, args) => SentinelOrVariants ver value args
  | (_, _) => ConvViaLiteral ver value t

theorem ParseComplexValue_eq {ver value : String} {t : PyType}
    {r : Origin × List PyType} (hde : DeGenericAlias ver t = .ok r) :
    ParseComplexValue ver value t = ParseComplexValueBody ver value t r := by
  rw [ParseComplexValue]
  split
  · rename_i heq
    exact absurd (hde.symm.trans heq) (by simp)
  · rename_i heq
    have h2 := hde.symm.trans heq
    injection h2 with h3
    subst h3
    rfl
  · rename_i fst snd hne heq
    have h2 := hde.symm.trans heq
    injection h2 with h3
    subst h3
    cases fst with
    | unionO => exact absurd rfl hne
    | listO => rfl
    | tupleO => rfl
    | setO => rfl
    | dictO => rfl
    | bytesO => rfl

theorem ParseComplexValue_deErr {ver value : String} {t : PyType}
    {e : PErr} (hde : DeGenericAlias ver t = .error e) :
    ParseComplexValue ver value t = .error e := by
  rw [ParseComplexValue]
  split
  · rename_i heq
    have h2 := hde.symm.trans heq
    injection h2 with h3
    rw [h3]
  all_goals
    rename_i heq
    exact absurd (hde.symm.trans heq) (by simp)

theorem deGeneric_union_false (ver : String) (args : List PyType) :
    DeGenericAlias ver (.union false args) = .ok (.unionO, args) := by
  simp [DeGenericAlias, isUnionTypeInst]

theorem deGeneric_union_true (ver : String) (args : List PyType)
    (hv : isVer311 ver = true) :
    DeGenericAlias ver (.union true args) = .ok (.unionO, args) := by
  simp [DeGenericAlias, isUnionTypeInst, hv]

theorem deGeneric_listT (ver : String) (args : List PyType) :
    DeGenericAlias ver (.listT args) = .ok (.listO, args) := by
  simp [DeGenericAlias, isUnionTypeInst]

theorem deGeneric_tupleT (ver : String) (args : List PyType) :
    DeGenericAlias ver (.tupleT args) = .ok (.tupleO, args) := by
  simp [DeGenericAlias, isUnionTypeInst]

theorem deGeneric_setT (ver : String) (args : List PyType) :
    DeGenericAlias ver (.setT args) = .ok (.setO, args) := by
  simp [DeGenericAlias, isUnionTypeInst]

theorem convElems_first_failure (ver : String) :
    ∀ (i : Nat) (ts : List PyType) (vs : List PyVal) (t : PyType) (v : PyVal) (e : PErr),
      ts.get? i = some t → vs.get? i = some v →
      ConvOne ver t v = .error e →
      (∀ j, j < i → ∀ tj vj, ts.get? j = some tj → vs.get? j = some vj →
          ∃ r, ConvOne ver tj vj = .ok r) →
      ConvElems ver ts vs = .error e := by
  intro i
  induction i with
  | zero =>
    intro ts vs t v e ht hv hc _
    cases ts with
    | nil => simp at ht
    | cons t0 ts2 =>
      cases vs with
      | nil => simp at hv
      | cons v0 vs2 =>
        simp at ht hv
        subst ht; subst hv
        rw [ConvElems, hc]
  | succ i ih =>
    intro ts vs t v e ht hv hc hpre
    cases ts with
    | nil => simp at ht
    | cons t0 ts2 =>
      cases vs with
      | nil => simp at hv
      | cons v0 vs2 =>
        obtain ⟨r, hr⟩ := hpre 0 (Nat.succ_pos i) t0 v0 (by simp) (by simp)
        have htail : ConvElems ver ts2 vs2 = .error e := by
          apply ih ts2 vs2 t v e
          · simpa using ht
          · simpa using hv
          · exact hc
          · intro j hj tj vj htj hvj
            exact hpre (j + 1) (Nat.succ_lt_succ hj) tj vj (by simpa using htj)
              (by simpa using hvj)
        rw [ConvElems, hr]
        cases r with
        | none => exact htail
        | some rv => rw [htail]

theorem convPairs_key_failure (ver : String) (kt vt : PyType) (k v : PyVal)
    (ps acc : List (PyVal × PyVal)) (e : PErr) (h : ConvKey ver kt k = .error e) :
    ConvPairs ver kt vt ((k, v) :: ps) acc = .error e := by
  rw [ConvPairs, h]

theorem convPairs_value_failure (ver : String) (kt vt : PyType) (k v : PyVal)
    (ps acc : List (PyVal × PyVal)) (rk : PyVal) (e : PErr)
    (hk : ConvKey ver kt k = .ok rk) (h : ConvVal ver vt v = .error e) :
    ConvPairs ver kt vt ((k, v) :: ps) acc = .error e := by
  rw [ConvPairs, hk, h]

/-- An identifier atom never carries a reserved spelling as a `Name`:
the three keywords are lexed into constants. -/
theorem identAtom_nkw (cs : List Char) (a : Ast) (r : List Char)
    (h : identAtom cs = some (a, r)) : noKeywordNames a = true := by
  rw [identAtom] at h
  by_cases h1 : (spanIdent cs).1.isEmpty = true
  · simp [h1] at h
  · have h1f : (spanIdent cs).1.isEmpty = false := by
      cases hh : (spanIdent cs).1.isEmpty
      · rfl
      · exact absurd hh h1
    simp only [h1f, Bool.false_eq_true, if_false] at h
    by_cases hT : String.mk (spanIdent cs).1 = "True"
    · simp only [hT, if_pos rfl] at h
      injection h with h2
      injection h2 with h3 h4
      rw [← h3]
      rfl
    · rw [if_neg hT] at h
      by_cases hF : String.mk (spanIdent cs).1 = "False"
      · simp only [hF, if_pos rfl] at h
        injection h with h2
        injection h2 with h3 h4
        rw [← h3]
        rfl
      · rw [if_neg hF] at h
        by_cases hN : String.mk (spanIdent cs).1 = "None"
        · simp only [hN, if_pos rfl] at h
          injection h with h2
          injection h2 with h3 h4
          rw [← h3]
          rfl
        · rw [if_neg hN] at h
          injection h with h2
          injection h2 with h3 h4
          rw [← h3]
          simp [noKeywordNames, isKeywordId, hT, hF, hN]

theorem parseBytesLit_nkw (tl : List Char) (a : Ast) (r : List Char)
    (h : parseBytesLit tl = some (a, r)) : noKeywordNames a = true := by
  cases tl with
  | nil => rw [parseBytesLit] at h; exact absurd h (by simp)
  | cons q tl2 =>
    rw [parseBytesLit] at h
    cases hL : takeStrLit q tl2 with
    | none => rw [hL] at h; exact absurd h (by simp)
    | some p =>
      obtain ⟨content, r1⟩ := p
      rw [hL] at h
      simp only at h
      injection h with h1
      injection h1 with h2 h3
      rw [← h2]
      rfl

mutual
theorem parseExpr_nkw : ∀ (f : Nat) (cs : List Char) (a : Ast) (r : List Char),
    parseExpr f cs = some (a, r) → noKeywordNames a = true
  | 0, cs, a, r => by
    intro h
    rw [parseExpr] at h
    exact absurd h (by simp)
  | f + 1, cs, a, r => by
    intro h
    rw [parseExpr] at h
    cases hA : parseAtom f (skipWs cs) with
    | none => rw [hA] at h; exact absurd h (by simp)
    | some p =>
      obtain ⟨a1, r1⟩ := p
      rw [hA] at h
      have ha1 := parseAtom_nkw f (skipWs cs) a1 r1 hA
      simp only at h
      cases hS : skipWs r1 with
      | nil =>
        rw [hS] at h
        simp only at h
        injection h with h1
        injection h1 with h2 h3
        rw [← h2]
        exact ha1
      | cons c tl =>
        rw [hS] at h
        simp only at h
        by_cases hop : (c = '+' || c = '-' || c = '*' || c = '/') = true
        · simp only [hop, if_true] at h
          cases hB : parseAtom f (skipWs tl) with
          | none => rw [hB] at h; exact absurd h (by simp)
          | some q =>
            obtain ⟨b, r2⟩ := q
            rw [hB] at h
            simp only at h
            injection h with h1
            injection h1 with h2 h3
            rw [← h2]
            have hb := parseAtom_nkw f (skipWs tl) b r2 hB
            simp [noKeywordNames, ha1, hb]
        · have hop2 : (c = '+' || c = '-' || c = '*' || c = '/') = false := by
            cases hh : (c = '+' || c = '-' || c = '*' || c = '/')
            · rfl
            · exact absurd hh hop
          simp only [hop2, Bool.false_eq_true, if_false] at h
          injection h with h1
          injection h1 with h2 h3
          rw [← h2]
          exact ha1

theorem parseAtom_nkw : ∀ (f : Nat) (cs : List Char) (a : Ast) (r : List Char),
    parseAtom f cs = some (a, r) → noKeywordNames a = true
  | 0, cs, a, r => by
    intro h
    rw [parseAtom] at h
    exact absurd h (by simp)
  | f + 1, [], a, r => by
    intro h
    rw [parseAtom] at h
    exact absurd h (by simp)
  | f + 1, c :: tl, a, r => by
    intro h
    rw [parseAtom] at h
    by_cases hminus : c = '-'
    · rw [if_pos hminus] at h
      cases hA : parseAtom f (skipWs tl) with
      | none => rw [hA] at h; exact absurd h (by simp)
      | some p =>
        obtain ⟨a1, r1⟩ := p
        rw [hA] at h
        simp only at h
        injection h with h1
        injection h1 with h2 h3
        rw [← h2]
        have ha1 := parseAtom_nkw f (skipWs tl) a1 r1 hA
        simpa [noKeywordNames] using ha1
    · rw [if_neg hminus] at h
      by_cases hdig : c.isDigit = true
      · simp only [hdig, if_true] at h
        injection h with h1
        injection h1 with h2 h3
        rw [← h2]
        rfl
      · have hdig2 : c.isDigit = false := by
          cases hh : c.isDigit
          · rfl
          · exact absurd hh hdig
        simp only [hdig2, Bool.false_eq_true, if_false] at h
        by_cases hq : (c = quoteS || c = quoteD) = true
        · simp only [hq, if_true] at h
          cases hL : takeStrLit c tl with
          | none => rw [hL] at h; exact absurd h (by simp)
          | some p =>
            obtain ⟨content, r1⟩ := p
            rw [hL] at h
            simp only at h
            injection h with h1
            injection h1 with h2 h3
            rw [← h2]
            rfl
        · have hq2 : (c = quoteS || c = quoteD) = false := by
            cases hh : (c = quoteS || c = quoteD)
            · rfl
            · exact absurd hh hq
          simp only [hq2, Bool.false_eq_true, if_false] at h
          by_cases hid : identStart c = true
          · simp only [hid, if_true] at h
            by_cases hb : (c = 'b' && headIsQuote tl) = true
            · simp only [hb, if_true] at h
              exact parseBytesLit_nkw tl a r h
            · have hb2 : (c = 'b' && headIsQuote tl) = false := by
                cases hh : (c = 'b' && headIsQuote tl)
                · rfl
                · exact absurd hh hb
              simp only [hb2, Bool.false_eq_true, if_false] at h
              exact identAtom_nkw (c :: tl) a r h
          · have hid2 : identStart c = false := by
              cases hh : identStart c
              · rfl
              · exact absurd hh hid
            simp only [hid2, Bool.false_eq_true, if_false] at h
            by_cases hbr : c = '['
            · rw [if_pos hbr] at h
              cases hE : parseElems f ']' tl with
              | none => rw [hE] at h; exact absurd h (by simp)
              | some p =>
                obtain ⟨es, r1⟩ := p
                rw [hE] at h
                simp only at h
                injection h with h1
                injection h1 with h2 h3
                rw [← h2]
                simpa [noKeywordNames] using parseElems_nkw f ']' tl es r1 hE
            · rw [if_neg hbr] at h
              by_cases hpar : c = '('
              · rw [if_pos hpar] at h
                cases hS : skipWs tl with
                | nil => rw [hS] at h; exact absurd h (by simp)
                | cons d tl2 =>
                  rw [hS] at h
                  simp only at h
                  by_cases hcl : d = ')'
                  · rw [if_pos hcl] at h
                    injection h with h1
                    injection h1 with h2 h3
                    rw [← h2]
                    rfl
                  · rw [if_neg hcl] at h
                    cases hX : parseExpr f (d :: tl2) with
                    | none => rw [hX] at h; exact absurd h (by simp)
                    | some p =>
                      obtain ⟨a1, r1⟩ := p
                      rw [hX] at h
                      simp only at h
                      have ha1 := parseExpr_nkw f (d :: tl2) a1 r1 hX
                      cases hS2 : skipWs r1 with
                      | nil => rw [hS2] at h; exact absurd h (by simp)
                      | cons d2 tl3 =>
                        rw [hS2] at h
                        simp only at h
                        by_cases hcl2 : d2 = ')'
                        · rw [if_pos hcl2] at h
                          injection h with h1
                          injection h1 with h2 h3
                          rw [← h2]
                          exact ha1
                        · rw [if_neg hcl2] at h
                          by_cases hcm : d2 = ','
                          · rw [if_pos hcm] at h
                            cases hE : parseElems f ')' tl3 with
                            | none => rw [hE] at h; exact absurd h (by simp)
                            | some q =>
                              obtain ⟨es, r2⟩ := q
                              rw [hE] at h
                              simp only at h
                              injection h with h1
                              injection h1 with h2 h3
                              rw [← h2]
                              have hes := parseElems_nkw f ')' tl3 es r2 hE
                              simp [noKeywordNames, noKeywordNamesL, ha1, hes]
                          · rw [if_neg hcm] at h
                            exact absurd h (by simp)
              · rw [if_neg hpar] at h
                by_cases hbo : c = braceO
                · rw [if_pos hbo] at h
                  cases hS : skipWs tl with
                  | nil => rw [hS] at h; exact absurd h (by simp)
                  | cons d tl2 =>
                    rw [hS] at h
                    simp only at h
                    by_cases hcl : d = braceC
                    · rw [if_pos hcl] at h
                      injection h with h1
                      injection h1 with h2 h3
                      rw [← h2]
                      rfl
                    · rw [if_neg hcl] at h
                      cases hX : parseExpr f (d :: tl2) with
                      | none => rw [hX] at h; exact absurd h (by simp)
                      | some p =>
                        obtain ⟨a1, r1⟩ := p
                        rw [hX] at h
                        simp only at h
                        have ha1 := parseExpr_nkw f (d :: tl2) a1 r1 hX
                        cases hS2 : skipWs r1 with
                        | nil => rw [hS2] at h; exact absurd h (by simp)
                        | cons d2 tl3 =>
                          rw [hS2] at h
                          simp only at h
                          by_cases hco : d2 = ':'
                          · rw [if_pos hco] at h
                            cases hV : parseExpr f tl3 with
                            | none => rw [hV] at h; exact absurd h (by simp)
                            | some q =>
                              obtain ⟨v1, r2⟩ := q
                              rw [hV] at h
                              simp only at h
                              have hv1 := parseExpr_nkw f tl3 v1 r2 hV
                              cases hS3 : skipWs r2 with
                              | nil => rw [hS3] at h; exact absurd h (by simp)
                              | cons d3 tl4 =>
                                rw [hS3] at h
                                simp only at h
                                by_cases hcl3 : d3 = braceC
                                · rw [if_pos hcl3] at h
                                  injection h with h1
                                  injection h1 with h2 h3
                                  rw [← h2]
                                  simp [noKeywordNames, noKeywordNamesP, ha1, hv1]
                                · rw [if_neg hcl3] at h
                                  by_cases hcm3 : d3 = ','
                                  · rw [if_pos hcm3] at h
                                    cases hP : parsePairs f tl4 with
                                    | none => rw [hP] at h; exact absurd h (by simp)
                                    | some pr =>
                                      obtain ⟨ps, r3⟩ := pr
                                      rw [hP] at h
                                      simp only at h
                                      injection h with h1
                                      injection h1 with h2 h3
                                      rw [← h2]
                                      have hps := parsePairs_nkw f tl4 ps r3 hP
                                      simp [noKeywordNames, noKeywordNamesP, ha1, hv1, hps]
                                  · rw [if_neg hcm3] at h
                                    exact absurd h (by simp)
                          · rw [if_neg hco] at h
                            by_cases hcm : d2 = ','
                            · rw [if_pos hcm] at h
                              cases hE : parseElems f braceC tl3 with
                              | none => rw [hE] at h; exact absurd h (by simp)
                              | some q =>
                                obtain ⟨es, r2⟩ := q
                                rw [hE] at h
                                simp only at h
                                injection h with h1
                                injection h1 with h2 h3
                                rw [← h2]
                                have hes := parseElems_nkw f braceC tl3 es r2 hE
                                simp [noKeywordNames, noKeywordNamesL, ha1, hes]
                            · rw [if_neg hcm] at h
                              by_cases hcl2 : d2 = braceC
                              · rw [if_pos hcl2] at h
                                injection h with h1
                                injection h1 with h2 h3
                                rw [← h2]
                                simp [noKeywordNames, noKeywordNamesL, ha1]
                              · rw [if_neg hcl2] at h
                                exact absurd h (by simp)
                · rw [if_neg hbo] at h
                  exact absurd h (by simp)

theorem parseElems_nkw : ∀ (f : Nat) (close : Char) (cs : List Char)
    (es : List Ast) (r : List Char),
    parseElems f close cs = some (es, r) → noKeywordNamesL es = true
  | 0, close, cs, es, r => by
    intro h
    rw [parseElems] at h
    exact absurd h (by simp)
  | f + 1, close, cs, es, r => by
    intro h
    rw [parseElems] at h
    cases hS : skipWs cs with
    | nil => rw [hS] at h; exact absurd h (by simp)
    | cons c tl =>
      rw [hS] at h
      simp only at h
      by_cases hcl : c = close
      · rw [if_pos hcl] at h
        injection h with h1
        injection h1 with h2 h3
        rw [← h2]
        rfl
      · rw [if_neg hcl] at h
        cases hX : parseExpr f (c :: tl) with
        | none => rw [hX] at h; exact absurd h (by simp)
        | some p =>
          obtain ⟨a1, r1⟩ := p
          rw [hX] at h
          simp only at h
          have ha1 := parseExpr_nkw f (c :: tl) a1 r1 hX
          cases hS2 : skipWs r1 with
          | nil => rw [hS2] at h; exact absurd h (by simp)
          | cons c2 tl2 =>
            rw [hS2] at h
            simp only at h
            by_cases hcm : c2 = ','
            · rw [if_pos hcm] at h
              cases hE : parseElems f close tl2 with
              | none => rw [hE] at h; exact absurd h (by simp)
              | some q =>
                obtain ⟨es2, r2⟩ := q
                rw [hE] at h
                simp only at h
                injection h with h1
                injection h1 with h2 h3
                rw [← h2]
                have hes := parseElems_nkw f close tl2 es2 r2 hE
                simp [noKeywordNamesL, ha1, hes]
            · rw [if_neg hcm] at h
              by_cases hcl2 : c2 = close
              · rw [if_pos hcl2] at h
                injection h with h1
                injection h1 with h2 h3
                rw [← h2]
                simp [noKeywordNamesL, ha1]
              · rw [if_neg hcl2] at h
                exact absurd h (by simp)

theorem parsePairs_nkw : ∀ (f : Nat) (cs : List Char)
    (ps : List (Ast × Ast)) (r : List Char),
    parsePairs f cs = some (ps, r) → noKeywordNamesP ps = true
  | 0, cs, ps, r => by
    intro h
    rw [parsePairs] at h
    exact absurd h (by simp)
  | f + 1, cs, ps, r => by
    intro h
    rw [parsePairs] at h
    cases hS : skipWs cs with
    | nil => rw [hS] at h; exact absurd h (by simp)
    | cons c tl =>
      rw [hS] at h
      simp only at h
      by_cases hcl : c = braceC
      · rw [if_pos hcl] at h
        injection h with h1
        injection h1 with h2 h3
        rw [← h2]
        rfl
      · rw [if_neg hcl] at h
        cases hX : parseExpr f (c :: tl) with
        | none => rw [hX] at h; exact absurd h (by simp)
        | some p =>
          obtain ⟨k1, r1⟩ := p
          rw [hX] at h
          simp only at h
          have hk1 := parseExpr_nkw f (c :: tl) k1 r1 hX
          cases hS2 : skipWs r1 with
          | nil => rw [hS2] at h; exact absurd h (by simp)
          | cons c2 tl2 =>
            rw [hS2] at h
            simp only at h
            by_cases hco : c2 = ':'
            · rw [if_pos hco] at h
              cases hV : parseExpr f tl2 with
              | none => rw [hV] at h; exact absurd h (by simp)
              | some q =>
                obtain ⟨v1, r2⟩ := q
                rw [hV] at h
                simp only at h
                have hv1 := parseExpr_nkw f tl2 v1 r2 hV
                cases hS3 : skipWs r2 with
                | nil => rw [hS3] at h; exact absurd h (by simp)
                | cons c3 tl3 =>
                  rw [hS3] at h
                  simp only at h
                  by_cases hcm : c3 = ','
                  · rw [if_pos hcm] at h
                    cases hP : parsePairs f tl3 with
                    | none => rw [hP] at h; exact absurd h (by simp)
                    | some pr =>
                      obtain ⟨ps2, r3⟩ := pr
                      rw [hP] at h
                      simp only at h
                      injection h with h1
                      injection h1 with h2 h3
                      rw [← h2]
                      have hps := parsePairs_nkw f tl3 ps2 r3 hP
                      simp [noKeywordNamesP, hk1, hv1, hps]
                  · rw [if_neg hcm] at h
                    by_cases hcl3 : c3 = braceC
                    · rw [if_pos hcl3] at h
                      injection h with h1
                      injection h1 with h2 h3
                      rw [← h2]
                      simp [noKeywordNamesP, hk1, hv1]
                    · rw [if_neg hcl3] at h
                      exact absurd h (by simp)
            · rw [if_neg hco] at h
              exact absurd h (by simp)
end

/-- The host parser never produces a `Name` node with a reserved
spelling. -/
theorem pyParse_nkw {s : String} {a : Ast} (h : pyParse s = .ok a) :
    noKeywordNames a = true := by
  rw [pyParse] at h
  cases hP : parseExpr (8 * (s.length + 1)) s.toList with
  | none => rw [hP] at h; exact absurd h (by simp)
  | some p =>
    obtain ⟨a1, r1⟩ := p
    rw [hP] at h
    simp only at h
    by_cases he : (skipWs r1).isEmpty = true
    · simp only [he, if_true] at h
      injection h with h2
      rw [← h2]
      exact parseExpr_nkw _ _ _ _ hP
    · have he2 : (skipWs r1).isEmpty = false := by
        cases hh : (skipWs r1).isEmpty
        · rfl
        · exact absurd hh he
      simp only [he2, Bool.false_eq_true, if_false] at h
      exact absurd h (by simp)

/-- On every token, `_LiteralEval` never fails with the
name-resolution error: every `Name` the host parser can produce is
non-keyword-spelled and is therefore rewritten to a string literal
before evaluation. -/
theorem literalEvalStr_no_nameError (s : String) :
    LiteralEvalStr s ≠ .error (.valueError .malformedName) := by
  rw [LiteralEvalStr]
  cases hP : pyParse s with
  | error e =>
    simp only
    rw [pyParse] at hP
    cases hX : parseExpr (8 * (s.length + 1)) s.toList with
    | none =>
      rw [hX] at hP
      injection hP with h2
      rw [← h2]
      simp
    | some p =>
      obtain ⟨a1, r1⟩ := p
      rw [hX] at hP
      simp only at hP
      by_cases he : (skipWs r1).isEmpty = true
      · simp [he] at hP
      · have he2 : (skipWs r1).isEmpty = false := by
          cases hh : (skipWs r1).isEmpty
          · rfl
          · exact absurd hh he
        simp only [he2, Bool.false_eq_true, if_false] at hP
        injection hP with h2
        rw [← h2]
        simp
  | ok root =>
    simp only
    by_cases hb : isBinOpAst root = true
    · simp [hb]
    · have hb2 : isBinOpAst root = false := by
        cases hh : isBinOpAst root
        · rfl
        · exact absurd hh hb
      simp only [hb2, Bool.false_eq_true, if_false]
      exact litEval_no_nameError _ (replaceNames_nameFree root (pyParse_nkw hP))

/-- C1 (amended).  For every `Sum` descriptor and token not spelling the
absence sentinel, the converter tries the non-absence variants in
declaration order; a variant failing with `ValueError` passes control to
the next variant and the first variant to convert successfully supplies
the result, but a variant failing with any other exception (for example
the `TypeError` raised when a `Sequence` variant measures the length of
an unsized literal) aborts the whole conversion; exhausting all variants
with `ValueError` failures alone fails with `NoVariantMatched`.  In
particular `Sum[Int, Str]` converts the token `"5"` to the integer `5`,
and `Union[int, Dict[str, int]]` on `"xyz"` exhausts both variants. -/
theorem union_first_success_amended :
    (∀ (ver value : String) (args : List PyType),
        ¬(value = "None" ∧ hasNoneT args = true) →
        ParseComplexValue ver value (.union false args) = FirstSuccessWins ver value args)
    ∧ ParseComplexValue "3.11.6" "5" (.union false [.intT, .strT]) = .ok (.intV 5)
    ∧ ParseComplexValue "3.11.6" "xyz" (.union false [.intT, .dictT .strT .intT]) =
        .error (.valueError .noVariantMatched) := by
  refine ⟨?_, ?_, ?_⟩
  · intro ver value args h
    have hcond : (decide (value = "None") && hasNoneT args) = false := by
      by_cases h1 : value = "None"
      · have h2 : hasNoneT args = false := by
          cases hh : hasNoneT args
          · rfl
          · exact absurd ⟨h1, hh⟩ h
        simp [h2]
      · simp [h1]
    rw [ParseComplexValue_eq (deGeneric_union_false ver args)]
    rw [ParseComplexValueBody, SentinelOrVariants]
    rw [hcond]
    simp only [Bool.false_eq_true, if_false]
    exact tryVariants_eq_firstSuccessWins ver value args
  · simp [ParseComplexValue, SentinelOrVariants, TryVariants, DeGenericAlias, IsGenericAlias,
          isVer311, isUnionTypeInst, hasOriginAttr, hasNoneT, isNoneT, TypeToParserGet, IntConv,
          parseIntStr, trimChars, allDigitsToNat, digitsToNat, charsLead]
  · simp [ParseComplexValue, SentinelOrVariants, TryVariants, DeGenericAlias, IsGenericAlias,
          isVer311, isUnionTypeInst, hasOriginAttr, hasNoneT, isNoneT, TypeToParserGet, IntConv,
          parseIntStr, trimChars, allDigitsToNat, ConvViaLiteral, ParseConvert, ConvDictLike,
          charsLead, show DefaultParseValue "xyz" = .ok (.strV "xyz") from rfl]

/-- C1, witness: the amended equation instantiated at the token `"7"`
against `Union[int]`, with its hypothesis discharged. -/
theorem union_first_success_amended_inst :
    ParseComplexValue "3.11.6" "7" (.union false [.intT]) =
      FirstSuccessWins "3.11.6" "7" [.intT] :=
  union_first_success_amended.1 "3.11.6" "7" [PyType.intT] (by simp)

/-- C1, counterexample to the claim as stated: converting the token
`"12"` against `Union[List[int], str]`, the `str` variant converts the
token successfully, yet the conversion does not return that success (nor
`NoVariantMatched`) — the `List[int]` variant raises `TypeError`
(`len(12)` on the literal-parsed integer) which the loop's
`except ValueError` does not catch, so the whole conversion aborts. -/
theorem union_abort_on_typeerror_cex :
    TypeToParserGet .strT (.strV "12") = .ok (.strV "12")
    ∧ ParseComplexValue "3.11.6" "12" (.union false [.listT [.intT], .strT]) =
        .error .typeError := by
  constructor
  · rfl
  · simp [ParseComplexValue, SentinelOrVariants, TryVariants, DeGenericAlias, IsGenericAlias,
          isVer311, isUnionTypeInst, hasOriginAttr, hasNoneT, isNoneT, TypeToParserGet,
          ConvViaLiteral, ParseConvert, ConvSeqLike, pyElems, charsLead,
          show DefaultParseValue "12" = .ok (.intV 12) from rfl]

/-- C2.  For every union descriptor containing an absence variant
(`type(None)`), converting the token `"None"` succeeds immediately with
the absence value, whatever the other variants are — shown for both union
spellings (the operator spelling under a `3.11.` runtime, where it is
recognized).  The concrete conjunct shows a `str` variant that would
itself accept `"None"` is never attempted: the result is absence, not the
string `"None"`. -/
theorem union_absence_sentinel :
    (∀ (ver : String) (sugar : Bool) (args : List PyType),
        (sugar = true → isVer311 ver = true) →
        hasNoneT args = true →
        ParseComplexValue ver "None" (.union sugar args) = .ok .noneV)
    ∧ ParseComplexValue "3.11.6" "None" (.union false [.strT, .noneT]) = .ok .noneV := by
  constructor
  · intro ver sugar args hv hn
    have hde : DeGenericAlias ver (.union sugar args) = .ok (.unionO, args) := by
      cases sugar with
      | false => exact deGeneric_union_false ver args
      | true => exact deGeneric_union_true ver args (hv rfl)
    rw [ParseComplexValue_eq hde]
    rw [ParseComplexValueBody, SentinelOrVariants]
    simp [hn]
  · simp [ParseComplexValue, SentinelOrVariants, DeGenericAlias, isVer311, isUnionTypeInst,
          hasNoneT, isNoneT, charsLead]

/-- C2, witness: `Optional[int]`-shaped union converting `"None"` under
the operator spelling on a `3.11.` runtime. -/
theorem union_absence_sentinel_inst :
    ParseComplexValue "3.11.6" "None" (.union true [.intT, .noneT]) = .ok .noneV :=
  union_absence_sentinel.1 "3.11.6" true [PyType.intT, PyType.noneT] (fun _ => rfl) rfl

/-- C3.  On a runtime whose version string starts `3.11.`, the classic
`Union[X, Y]` spelling and the operator sugar `X | Y` convert every token
identically (both resolve to the same `Sum`).  On any other runtime the
code's version test fails and the sugar spelling is never recognized as a
union: at version `3.12.0` the classic spelling converts `"5"` against
`Union[int, str]` to the integer `5`, while the operator spelling raises
`TypeError` (the un-normalized `types.UnionType` object is called as if
it were a converter).  This contradicts the specification's demand that
the two spellings behave identically on every runtime version. -/
theorem union_spelling_version_divergence :
    (∀ (ver value : String) (args : List PyType), isVer311 ver = true →
        SpecTypeParseValueGen ver (.union true args) value =
          SpecTypeParseValueGen ver (.union false args) value)
    ∧ SpecTypeParseValueGen "3.12.0" (.union false [.intT, .strT]) "5" = .ok (.intV 5)
    ∧ SpecTypeParseValueGen "3.12.0" (.union true [.intT, .strT]) "5" = .error .typeError
    ∧ SpecTypeParseValueGen "3.11.6" (.union true [.intT, .strT]) "5" = .ok (.intV 5) := by
  refine ⟨?_, ?_, ?_, ?_⟩
  · intro ver value args hv
    simp only [SpecTypeParseValueGen, IsGenericAlias, isUnionTypeInst, hasOriginAttr, hv,
               Bool.and_true, Bool.true_or, Bool.or_true, Bool.true_and, if_true]
    rw [ParseComplexValue_eq (deGeneric_union_true ver args hv),
        ParseComplexValue_eq (deGeneric_union_false ver args)]
    simp [ParseComplexValueBody]
  · simp [SpecTypeParseValueGen, ParseComplexValue, SentinelOrVariants, TryVariants,
          DeGenericAlias, IsGenericAlias, isVer311, isUnionTypeInst, hasOriginAttr, hasNoneT,
          isNoneT, TypeToParserGet, IntConv, parseIntStr, trimChars, allDigitsToNat,
          digitsToNat, charsLead]
  · simp [SpecTypeParseValueGen, IsGenericAlias, isVer311, isUnionTypeInst, hasOriginAttr,
          TypeToParserGet, charsLead]
  · simp [SpecTypeParseValueGen, ParseComplexValue, SentinelOrVariants, TryVariants,
          DeGenericAlias, IsGenericAlias, isVer311, isUnionTypeInst, hasOriginAttr, hasNoneT,
          isNoneT, TypeToParserGet, IntConv, parseIntStr, trimChars, allDigitsToNat,
          digitsToNat, charsLead]

/-- C3, witness: the spelling-equivalence instantiated on a `3.11.`
runtime. -/
theorem union_spelling_version_divergence_inst :
    SpecTypeParseValueGen "3.11.0" (.union true [.intT]) "5" =
      SpecTypeParseValueGen "3.11.0" (.union false [.intT]) "5" :=
  union_spelling_version_divergence.1 "3.11.0" "5" [PyType.intT] rfl

/-- C4.  `_Replacement` turns every unquoted identifier leaf whose
spelling is not one of the three reserved keywords into a string literal
holding its own spelling; consequently, on any tree free of keyword-named
`Name` leaves (every tree the host parser can produce — CPython lexes
`True`/`False`/`None` as keywords, never as identifiers), evaluating the
rewritten tree can never fail with the name-resolution error — and hence
on *every token* `_LiteralEval` never raises it.  The token `"{a: b}"`
parses to the map `{"a": "b"}`. -/
theorem bareword_promotion :
    (∀ id : String, isKeywordId id = false → Replacement (.name id) = .constStr id)
    ∧ (∀ a : Ast, noKeywordNames a = true →
        litEvalAst (replaceNames a) ≠ .error (.valueError .malformedName))
    ∧ (∀ s : String, LiteralEvalStr s ≠ .error (.valueError .malformedName))
    ∧ DefaultParseValue "{a: b}" = .ok (.dictV [(.strV "a", .strV "b")]) := by
  refine ⟨?_, ?_, ?_, rfl⟩
  · intro id h
    simp [Replacement, h]
  · intro a h
    exact litEval_no_nameError _ (replaceNames_nameFree a h)
  · exact literalEvalStr_no_nameError

/-- C4, witness: the replacement and the no-name-error property
instantiated at the bareword `"b"` and the tree of `{a: b}`. -/
theorem bareword_promotion_inst :
    Replacement (.name "b") = .constStr "b"
    ∧ litEvalAst (replaceNames (.dictL [(.name "a", .name "b")])) ≠
        .error (.valueError .malformedName)
    ∧ LiteralEvalStr "{a: b}" ≠ .error (.valueError .malformedName) :=
  ⟨bareword_promotion.1 "b" rfl,
   bareword_promotion.2.1 (.dictL [(.name "a", .name "b")]) rfl,
   bareword_promotion.2.2.1 "{a: b}"⟩

/-- C5 (amended).  `DefaultParseValue` returns the literal parser's value
verbatim when literal evaluation succeeds, and returns the entire
original token as an opaque string when literal evaluation raises
`ValueError` or `SyntaxError` — the two classes its `except` clause
names.  (It is not total: an exception of any other class, such as the
`TypeError` raised by an unhashable container key, propagates — see the
counterexample.)  The token `"42"` yields the integer `42`. -/
theorem unknown_descriptor_fallback :
    (∀ (s : String) (v : PyVal), LiteralEvalStr s = .ok v → DefaultParseValue s = .ok v)
    ∧ (∀ (s : String) (k : VKind), LiteralEvalStr s = .error (.valueError k) →
        DefaultParseValue s = .ok (.strV s))
    ∧ (∀ s : String, LiteralEvalStr s = .error .syntaxError →
        DefaultParseValue s = .ok (.strV s))
    ∧ DefaultParseValue "42" = .ok (.intV 42) := by
  refine ⟨?_, ?_, ?_, rfl⟩
  · intro s v h
    simp [DefaultParseValue, h]
  · intro s k h
    simp [DefaultParseValue, h]
  · intro s h
    simp [DefaultParseValue, h]

/-- C5, witness: the three cases instantiated — a successful literal
(`"42"`), a `ValueError` (the rejected root binary operation of
`"1+2"`), and a `SyntaxError` (`"("`). -/
theorem unknown_descriptor_fallback_inst :
    DefaultParseValue "42" = .ok (.intV 42)
    ∧ DefaultParseValue "1+2" = .ok (.strV "1+2")
    ∧ DefaultParseValue "(" = .ok (.strV "(") :=
  ⟨unknown_descriptor_fallback.1 "42" (.intV 42) rfl,
   unknown_descriptor_fallback.2.1 "1+2" .rootBinOp rfl,
   unknown_descriptor_fallback.2.2.1 "(" rfl⟩

/-- C5, counterexample to "this operation is total and never fails": on
the token `"{[1]: 2}"` the literal evaluator raises `TypeError`
(unhashable dict key), which `DefaultParseValue`'s
`except (SyntaxError, ValueError)` does not catch, so the conversion
fails instead of returning the token as an opaque string. -/
theorem unknown_descriptor_unhashable_cex :
    DefaultParseValue "{[1]: 2}" = .error .typeError := rfl

/-- C6.  The registered boolean converter returns true exactly when its
input equals the string `"True"` or Python-equals boolean true; on string
inputs it is precisely the case-sensitive comparison with `"True"` — so
the lowercase `"true"` yields false. -/
theorem bool_conv_exact_spelling :
    (∀ s : String, BoolConv (.strV s) = (s == "True"))
    ∧ BoolConv (.strV "True") = true
    ∧ BoolConv (.strV "true") = false
    ∧ BoolConv (.boolV true) = true := by
  refine ⟨?_, rfl, rfl, rfl⟩
  intro s
  have h : BoolConv (.strV s) = ((s == "True") || false) := rfl
  rw [h, Bool.or_false]

/-- C7 (amended).  The literal-parsed tuple's arity must equal the
`FixedTuple` descriptor's declared element count in every case — there is
no broadcast exception for a descriptor spelled with a repeated element
type — and a mismatch fails with `ArityMismatch`: `FixedTuple(Int, Str)`
fails on `"(1,2,3)"` and succeeds on `"(1,2)"`. -/
theorem fixed_tuple_arity_exact :
    (∀ (ver : String) (args : List PyType) (l : List PyVal),
        l.length ≠ args.length →
        ParseConvert ver (.tupleV l) (.tupleT args) = .error (.valueError .arityMismatch))
    ∧ ParseComplexValue "3.11.6" "(1,2,3)" (.tupleT [.intT, .strT]) =
        .error (.valueError .arityMismatch)
    ∧ ParseComplexValue "3.11.6" "(1,2)" (.tupleT [.intT, .strT]) =
        .ok (.tupleV [.intV 1, .strV "2"]) := by
  refine ⟨?_, ?_, ?_⟩
  · intro ver args l h
    rw [ParseConvert_eq (deGeneric_tupleT ver args)]
    rw [ParseConvertBody, ConvSeqLike]
    simp [pyElems, h]
  · simp [ParseComplexValue, DeGenericAlias, isVer311, isUnionTypeInst, hasOriginAttr, charsLead,
          ConvViaLiteral, ParseConvert, ConvSeqLike, pyElems,
          show DefaultParseValue "(1,2,3)" = .ok (.tupleV [.intV 1, .intV 2, .intV 3]) from rfl]
  · simp [ParseComplexValue, DeGenericAlias, isVer311, isUnionTypeInst, hasOriginAttr, charsLead,
          ConvViaLiteral, ParseConvert, ConvSeqLike, pyElems, ConvElems, ConvOne, IsGenericAlias,
          isNoneT, isTypeVarInst, isAnyT, TypeToParserGet, IntConv, pyStr, pyRepr,
          show toString (2 : Int) = "2" from by decide,
          show DefaultParseValue "(1,2)" = .ok (.tupleV [.intV 1, .intV 2]) from rfl]

/-- C7, witness: the arity equation instantiated at a two-element tuple
against a one-element descriptor. -/
theorem fixed_tuple_arity_exact_inst :
    ParseConvert "3.11.6" (.tupleV [.intV 1, .intV 2]) (.tupleT [.intT]) =
      .error (.valueError .arityMismatch) :=
  fixed_tuple_arity_exact.1 "3.11.6" [PyType.intT] [PyVal.intV 1, PyVal.intV 2] (by decide)

/-- C7, counterexample to the claim's broadcast clause: a `FixedTuple`
descriptor spelled with one repeated element type — `Tuple[int, ...]`,
whose `__args__` are `(int, Ellipsis)` — does *not* broadcast: converting
`"(1,2,3)"` fails with `ArityMismatch` (the parsed arity 3 is compared
with the literal argument count 2), where the claim requires any arity to
succeed. -/
theorem fixed_tuple_no_broadcast_cex :
    ParseComplexValue "3.11.6" "(1,2,3)" (.tupleT [.intT, .ellipsisT]) =
      .error (.valueError .arityMismatch) := by
  simp [ParseComplexValue, DeGenericAlias, isVer311, isUnionTypeInst, hasOriginAttr, charsLead,
        ConvViaLiteral, ParseConvert, ConvSeqLike, pyElems,
        show DefaultParseValue "(1,2,3)" = .ok (.tupleV [.intV 1, .intV 2, .intV 3]) from rfl]

/-- C8 (amended).  `Sequence(e)`/`SetType(e)` conversion does not check
the literal's container shape: whatever sized iterable the token parses
to (list, tuple, set, string, dict), its elements are converted against
the broadcast element descriptor and repackaged into the *descriptor's*
container kind; only an unsized literal (a number, boolean or `None`,
whose `len()` raises) makes the conversion fail, with `TypeError`.  In
particular `Sequence(Int)` happily converts the tuple-shaped token
`"(1,2)"` into a list. -/
theorem seq_set_any_sized_iterable :
    (∀ (ver : String) (a : PyType) (parsed : PyVal) (vs : List PyVal),
        pyElems parsed = some vs →
        ParseConvert ver parsed (.listT [a]) =
          (match ConvElems ver (List.replicate vs.length a) vs with
           | .ok rs => .ok (.listV rs)
           | .error e => .error e))
    ∧ (∀ (ver : String) (a : PyType) (parsed : PyVal) (vs : List PyVal),
        pyElems parsed = some vs →
        ParseConvert ver parsed (.setT [a]) =
          (match ConvElems ver (List.replicate vs.length a) vs with
           | .ok rs => setCtor rs []
           | .error e => .error e))
    ∧ (∀ (ver : String) (a : PyType) (parsed : PyVal),
        pyElems parsed = Option.none →
        ParseConvert ver parsed (.listT [a]) = .error .typeError)
    ∧ ParseComplexValue "3.11.6" "(1,2)" (.listT [.intT]) = .ok (.listV [.intV 1, .intV 2]) := by
  refine ⟨?_, ?_, ?_, ?_⟩
  · intro ver a parsed vs h
    rw [ParseConvert_eq (deGeneric_listT ver [a])]
    rw [ParseConvertBody, ConvSeqLike]
    rw [h]
    simp only [listMul_singleton, List.length_replicate]
    simp
    cases hc : ConvElems ver (List.replicate vs.length a) vs <;> simp
  · intro ver a parsed vs h
    rw [ParseConvert_eq (deGeneric_setT ver [a])]
    rw [ParseConvertBody, ConvSeqLike]
    rw [h]
    simp only [listMul_singleton, List.length_replicate]
    simp
    cases hc : ConvElems ver (List.replicate vs.length a) vs <;> simp
  · intro ver a parsed h
    rw [ParseConvert_eq (deGeneric_listT ver [a])]
    rw [ParseConvertBody, ConvSeqLike]
    rw [h]
  · simp [ParseComplexValue, DeGenericAlias, isVer311, isUnionTypeInst, hasOriginAttr, charsLead,
          ConvViaLiteral, ParseConvert, ConvSeqLike, pyElems, listMul, ConvElems, ConvOne,
          IsGenericAlias, isNoneT, isTypeVarInst, isAnyT, TypeToParserGet, IntConv,
          show DefaultParseValue "(1,2)" = .ok (.tupleV [.intV 1, .intV 2]) from rfl]

/-- C8, witness: the broadcast equation instantiated at a tuple-shaped
value against `Sequence(Int)`, and the unsized-literal case at `None`. -/
theorem seq_set_any_sized_iterable_inst :
    ParseConvert "3.11.6" (.tupleV [.intV 3]) (.listT [.intT]) =
      (match ConvElems "3.11.6" (List.replicate 1 PyType.intT) [PyVal.intV 3] with
       | .ok rs => .ok (.listV rs)
       | .error e => .error e)
    ∧ ParseConvert "3.11.6" .noneV (.listT [.intT]) = .error .typeError :=
  ⟨seq_set_any_sized_iterable.1 "3.11.6" PyType.intT (.tupleV [.intV 3]) [PyVal.intV 3] rfl,
   seq_set_any_sized_iterable.2.2.1 "3.11.6" PyType.intT .noneV rfl⟩

/-- C8, counterexample to the claim's shape requirement: the token
`"[1,2]"` literal-parses to a *sequence* shape, not a set, yet converting
it against `SetType(Int)` succeeds, producing the set `{1, 2}`. -/
theorem set_accepts_list_literal_cex :
    LiteralEvalStr "[1,2]" = .ok (.listV [.intV 1, .intV 2])
    ∧ ParseComplexValue "3.11.6" "[1,2]" (.setT [.intT]) = .ok (.setV [.intV 1, .intV 2]) := by
  constructor
  · rfl
  · simp [ParseComplexValue, DeGenericAlias, isVer311, isUnionTypeInst, hasOriginAttr, charsLead,
          ConvViaLiteral, ParseConvert, ConvSeqLike, pyElems, listMul, ConvElems, ConvOne,
          IsGenericAlias, isNoneT, isTypeVarInst, isAnyT, TypeToParserGet, IntConv, setCtor,
          pyHashable, setInsert, pyMem, pyEq,
          show DefaultParseValue "[1,2]" = .ok (.listV [.intV 1, .intV 2]) from rfl]

/-- C9.  Container conversions are all-or-nothing: in the element loop,
if the conversion of the element at position `i` fails while every
earlier element converts, the whole loop returns exactly that element's
failure (no partial container); in the mapping loop, a failing key or a
failing value likewise aborts with that failure.  Concretely,
`Sequence(Int)` on the 5-element token `"[1,2,abc,4,5]"` fails with the
`int("abc")` `ValueError`, and `Mapping(Str, Int)` on `"{a: 1, b: x}"`
fails with the `int("x")` `ValueError`. -/
theorem container_all_or_nothing :
    (∀ (ver : String) (i : Nat) (ts : List PyType) (vs : List PyVal)
        (t : PyType) (v : PyVal) (e : PErr),
        ts.get? i = some t → vs.get? i = some v →
        ConvOne ver t v = .error e →
        (∀ j, j < i → ∀ tj vj, ts.get? j = some tj → vs.get? j = some vj →
            ∃ r, ConvOne ver tj vj = .ok r) →
        ConvElems ver ts vs = .error e)
    ∧ (∀ (ver : String) (kt vt : PyType) (k v : PyVal)
        (ps acc : List (PyVal × PyVal)) (e : PErr),
        ConvKey ver kt k = .error e →
        ConvPairs ver kt vt ((k, v) :: ps) acc = .error e)
    ∧ (∀ (ver : String) (kt vt : PyType) (k v : PyVal)
        (ps acc : List (PyVal × PyVal)) (rk : PyVal) (e : PErr),
        ConvKey ver kt k = .ok rk → ConvVal ver vt v = .error e →
        ConvPairs ver kt vt ((k, v) :: ps) acc = .error e)
    ∧ ParseComplexValue "3.11.6" "[1,2,abc,4,5]" (.listT [.intT]) =
        .error (.valueError (.cannotParseInt "abc"))
    ∧ ParseComplexValue "3.11.6" "{a: 1, b: x}" (.dictT .strT .intT) =
        .error (.valueError (.cannotParseInt "x")) := by
  refine ⟨?_, ?_, ?_, ?_, ?_⟩
  · intro ver i ts vs t v e ht hv hc hpre
    exact convElems_first_failure ver i ts vs t v e ht hv hc hpre
  · intro ver kt vt k v ps acc e h
    exact convPairs_key_failure ver kt vt k v ps acc e h
  · intro ver kt vt k v ps acc rk e hk h
    exact convPairs_value_failure ver kt vt k v ps acc rk e hk h
  · simp [ParseComplexValue, DeGenericAlias, isVer311, isUnionTypeInst, hasOriginAttr, charsLead,
          ConvViaLiteral, ParseConvert, ConvSeqLike, pyElems, listMul, ConvElems, ConvOne,
          IsGenericAlias, isNoneT, isTypeVarInst, isAnyT, TypeToParserGet, IntConv, parseIntStr,
          trimChars, allDigitsToNat,
          show DefaultParseValue "[1,2,abc,4,5]" =
            .ok (.listV [.intV 1, .intV 2, .strV "abc", .intV 4, .intV 5]) from rfl]
  · simp [ParseComplexValue, DeGenericAlias, isVer311, isUnionTypeInst, hasOriginAttr, charsLead,
          ConvViaLiteral, ParseConvert, ConvDictLike, ConvPairs, ConvKey, ConvVal, IsGenericAlias,
          isNoneT, isTypeVarInst, TypeToParserGet, IntConv, pyStr, parseIntStr, trimChars,
          allDigitsToNat, pyHashable, dictInsert,
          show DefaultParseValue "{a: 1, b: x}" =
            .ok (.dictV [(.strV "a", .intV 1), (.strV "b", .strV "x")]) from rfl]

/-- C9, witness: the first-failure law instantiated at position 1 of
`[int, int]` against `[1, "a"]` — the element conversion at index 1
fails with `int("a")`, index 0 succeeds, and the loop returns that
failure. -/
theorem container_all_or_nothing_inst :
    ConvElems "3.11.6" [PyType.intT, PyType.intT] [PyVal.intV 1, PyVal.strV "a"] =
      .error (.valueError (.cannotParseInt "a")) := by
  apply container_all_or_nothing.1 "3.11.6" 1 _ _ PyType.intT (PyVal.strV "a")
  · rfl
  · rfl
  · simp [ConvOne, IsGenericAlias, isUnionTypeInst, hasOriginAttr, isVer311, isNoneT,
          isTypeVarInst, isAnyT, TypeToParserGet, IntConv, parseIntStr, trimChars,
          allDigitsToNat, charsLead]
  · intro j hj tj vj htj hvj
    have hj0 : j = 0 := by omega
    subst hj0
    simp at htj hvj
    subst htj
    subst hvj
    refine ⟨some (.intV 1), ?_⟩
    simp [ConvOne, IsGenericAlias, isUnionTypeInst, hasOriginAttr, isVer311, isNoneT,
          isTypeVarInst, isAnyT, TypeToParserGet, IntConv, charsLead]

/-- C10.  Applied to an already-parsed non-string value (as happens for
boolean elements inside container literals), the boolean converter
returns true for the integer `1` — Python equality makes `1 == True`
hold — while `0` and the string `"yes"` yield false; inside a container,
`List[bool]` on `"[1, 0]"` converts to `[True, False]`. -/
theorem bool_conv_int_one :
    BoolConv (.intV 1) = true
    ∧ BoolConv (.intV 0) = false
    ∧ BoolConv (.strV "yes") = false
    ∧ ParseComplexValue "3.11.6" "[1, 0]" (.listT [.boolT]) =
        .ok (.listV [.boolV true, .boolV false]) := by
  refine ⟨rfl, rfl, rfl, ?_⟩
  simp [ParseComplexValue, DeGenericAlias, isVer311, isUnionTypeInst, hasOriginAttr, charsLead,
        ConvViaLiteral, ParseConvert, ConvSeqLike, pyElems, listMul, ConvElems, ConvOne,
        IsGenericAlias, isNoneT, isTypeVarInst, isAnyT, TypeToParserGet, BoolConv, pyEq,
        show DefaultParseValue "[1, 0]" = .ok (.listV [.intV 1, .intV 0]) from rfl]
